import Mathlib

/-!
Verification development for the Linker import-rewrite engine.

The repository rewrites import statements across JS/TS, Python, Java, Go and
CSS files when a file or folder is renamed.  This file gives a shallow
embedding of the relevant source functions (regex-based line scanners, match
classifiers, path rewriters, the statement formatter, the folder/file rename
scan loops, the history ledger and the batch error-isolation wrapper) and
proves or refutes the frozen specification claims about them.

Strings from the source are modelled as `List Char`; each JavaScript regular
expression is implemented as an explicit matcher with the same backtracking
behaviour on the inputs the scanners feed it, and column arithmetic follows
the source line by line (including its use of `String.indexOf` and hardcoded
keyword offsets).
-/

namespace Linker

abbrev Str := List Char

/-- Single-quote character, written via its code point to keep source lines readable. -/
def sq : Char := Char.ofNat 39

/-- Double-quote character. -/
def dq : Char := '"'

/-- Left brace character. -/
def lb : Char := Char.ofNat 123

/-- Right brace character. -/
def rb : Char := Char.ofNat 125

/-- JavaScript regex `\w`: ASCII letters, digits and underscore. -/
def isWordChar (c : Char) : Bool :=
  (('a' ≤ c && c ≤ 'z') || ('A' ≤ c && c ≤ 'Z') || ('0' ≤ c && c ≤ '9') || c = '_')

/-- JavaScript regex `\s` restricted to the ASCII whitespace the scanners meet. -/
def isWs (c : Char) : Bool :=
  (c = ' ' || c = '\t' || c = '\n' || c = '\r' || c.toNat = 11 || c.toNat = 12)

/-- Quote characters recognised by the scanners. -/
def isQuote (c : Char) : Bool := (c = dq || c = sq)

/-- Substring of `l` on the half-open index interval `[i, j)`, clamped to the list. -/
def sub (l : Str) (i j : Nat) : Str := (l.drop i).take (j - i)

/-- Literal test: does the word `w` occur in `l` starting exactly at index `i`? -/
def litAt (l : Str) (i : Nat) (w : Str) : Bool := sub l i (i + w.length) == w

/-- Run of characters satisfying `f` starting at index `i` of `l`. -/
def runOf (f : Char → Bool) (l : Str) (i : Nat) : Str := (l.drop i).takeWhile f

/-- Length of the whitespace run starting at index `i`. -/
def wsRun (l : Str) (i : Nat) : Nat := (runOf isWs l i).length

/-- JavaScript `String.indexOf`: position of the first occurrence of `n` in `h`,
`none` when absent. -/
def findSub (h n : Str) : Option Nat :=
  (List.range (h.length + 1)).find? (fun i => sub h i (i + n.length) == n)

/-- JavaScript `String.includes`. -/
def containsSub (h n : Str) : Bool := (findSub h n).isSome

/-- JavaScript `String.replace(string, string)`: replace the first occurrence only. -/
def replaceFirst (h old new : Str) : Str :=
  match findSub h old with
  | some i => h.take i ++ new ++ h.drop (i + old.length)
  | none => h

/-- JavaScript `String.trim`. -/
def strTrim (l : Str) : Str :=
  ((l.dropWhile isWs).reverse.dropWhile isWs).reverse

/-- Test used for `startsWith`. -/
def startsWithStr (l p : Str) : Bool := litAt l 0 p

/-- Test used for `endsWith`. -/
def endsWithStr (l s : Str) : Bool :=
  s.length ≤ l.length && litAt l (l.length - s.length) s

/-- JavaScript `String.split(sep)` for a single-character separator. -/
def splitOnChar (c : Char) : Str → List Str
  | [] => [[]]
  | x :: xs =>
    match splitOnChar c xs with
    | [] => [[]]
    | h :: t => if x = c then [] :: h :: t else (x :: h) :: t

/-- Join a list of path segments with a separator character. -/
def joinWithChar (c : Char) : List Str → Str
  | [] => []
  | [x] => x
  | x :: xs => x ++ c :: joinWithChar c xs

/-!  Regex execution.  Each pattern of the source is realised as a matcher
`try_ : Nat → Option PatRes` that decides whether the pattern matches at a
given start index of the line and, if so, reports the match length together
with the captured quote and path groups.  `execAllFrom` then reproduces the
behaviour of a JavaScript global `exec` loop: find the leftmost match at or
after the current position, emit it, and resume after its end. -/

/-- Result of matching one regex pattern at one position: full-match length,
captured quote group and captured path group. -/
structure PatRes where
  len : Nat
  quote : Str
  path : Str
deriving Repr, DecidableEq

/-- Global-regex execution loop: leftmost match at or after `pos`, then resume
after the match (JavaScript `lastIndex`).  Fuel bounds the scan. -/
def execAllFrom (try_ : Nat → Option PatRes) : Nat → Nat → List (Nat × PatRes)
  | _, 0 => []
  | pos, fuel + 1 =>
    match try_ pos with
    | some r => (pos, r) :: execAllFrom try_ (pos + max r.len 1) fuel
    | none => execAllFrom try_ (pos + 1) fuel

/-- Character class `[\w\s{},*]` of the JS `import ... from` / `export ... from`
patterns. -/
def jsBindClass (c : Char) : Bool :=
  (isWordChar c || isWs c || c = lb || c = rb || c = ',' || c = '*')

/-- Whitespace test on an optional character. -/
def isWsAt (l : Str) (i : Nat) : Bool :=
  match l.get? i with
  | some c => isWs c
  | none => false

/-- Decides whether the optional binding group `[\w\s{},*]+\s+from\s+` can
cover the region between the keyword and the opening quote, mirroring the
backtracking of the JS regex: the region must decompose as
whitespace+, class+, whitespace+, `from`, whitespace+. -/
def fromSplitOk (region : Str) : Bool :=
  (List.range (region.length + 1)).any (fun p =>
    decide (3 ≤ p) && litAt region p "from".toList &&
    isWsAt region (p - 1) &&
    (let y := region.drop (p + 4)
     !y.isEmpty && y.all isWs))

/-- Matcher for `import\s+(?:[\w\s{},*]+\s+from\s+)?(['"])(.*?)\1` (and the
`export` variant) at position `i`.  Because the binding class contains no
quote character, the opening quote of a successful match is necessarily the
first non-class character after the keyword, and the lazy path group ends at
the first repetition of that quote. -/
def tryFromKw (kw : Str) (line : Str) (i : Nat) : Option PatRes :=
  if litAt line i kw then
    let j0 := i + kw.length
    let region := runOf jsBindClass line j0
    let j := j0 + region.length
    match line.get? j with
    | some q =>
      if isQuote q then
        match region.head? with
        | none => none
        | some c0 =>
          if isWs c0 && (region.all isWs || fromSplitOk region) then
            match findSub (sub line (j + 1) line.length) [q] with
            | some k0 =>
              let k := j + 1 + k0
              some ⟨k + 1 - i, [q], sub line (j + 1) k⟩
            | none => none
          else none
      else none
    | none => none
  else none

/-- Closing-delimiter search for call-style patterns `...(['"])(.*?)\1\s*\)`:
the lazy path group extends to the first same-quote character that is followed
by optional whitespace and a closing parenthesis. -/
def findCloseCall (line : Str) (q : Char) : Nat → Nat → Option (Nat × Nat)
  | _, 0 => none
  | fromIdx, fuel + 1 =>
    match findSub (sub line fromIdx line.length) [q] with
    | none => none
    | some k0 =>
      let k := fromIdx + k0
      let m := k + 1 + wsRun line (k + 1)
      if line.get? m == some ')' then some (k, m)
      else findCloseCall line q (k + 1) fuel

/-- Matcher for `require\s*\(\s*(['"])(.*?)\1\s*\)` and the dynamic-import
pattern `import\s*\(\s*(['"])(.*?)\1\s*\)` at position `i`. -/
def tryCall (kw : Str) (line : Str) (i : Nat) : Option PatRes :=
  if litAt line i kw then
    let a := i + kw.length + wsRun line (i + kw.length)
    if line.get? a == some '(' then
      let b := a + 1 + wsRun line (a + 1)
      match line.get? b with
      | some q =>
        if isQuote q then
          match findCloseCall line q (b + 1) line.length with
          | some (k, m) => some ⟨m + 1 - i, [q], sub line (b + 1) k⟩
          | none => none
        else none
      | none => none
    else none
  else none

/-- Import kinds reported by the scanners (`importScanner.ts` `ImportMatch.type`). -/
inductive ImportType where
  | imp
  | req
  | exp
deriving Repr, DecidableEq

/-- One located import statement (`importScanner.ts` interface `ImportMatch`):
path text, 0-indexed line, `[startColumn, endColumn)` span of the path token
with the import kind and quote character (empty for quote-less languages). -/
structure ImportMatch where
  importPath : Str
  line : Nat
  startColumn : Nat
  endColumn : Nat
  itype : ImportType
  quote : Str
deriving Repr, DecidableEq

/-- Line-by-line scan driver shared by the per-language scanners: apply a
per-line scanner to every line together with its index. -/
def scanLinesWith (scanLine : Str → Nat → List ImportMatch) : List Str → Nat → List ImportMatch
  | [], _ => []
  | l :: ls, i => scanLine l i ++ scanLinesWith scanLine ls (i + 1)

namespace ImportScanner

/-- Comment / blank-line filter of the JS scanner (`isCommentOrEmpty`). -/
def isCommentOrEmpty (line : Str) : Bool :=
  let t := strTrim line
  t.isEmpty || startsWithStr t "//".toList || startsWithStr t "/*".toList ||
    startsWithStr t "*".toList

/-- Import-kind classification from the full matched text (`getImportType`). -/
def getImportType (matchedText : Str) : ImportType :=
  if startsWithStr matchedText "export".toList then .exp
  else if containsSub matchedText "require".toList then .req
  else .imp

/-- Emission step of the JS scanner: given a raw pattern match, recover the
column span of the path by searching the full matched text for
`quote + path + quote` (the source's `indexOf` guard) and build the
`ImportMatch`. -/
def emitJs (line : Str) (lineIdx : Nat) (ir : Nat × PatRes) : Option ImportMatch :=
  let i := ir.1
  let r := ir.2
  let fullMatch := sub line i (i + r.len)
  match findSub fullMatch (r.quote ++ r.path ++ r.quote) with
  | some qi =>
    some ⟨r.path, lineIdx,
      i + qi + r.quote.length,
      i + qi + r.quote.length + r.path.length,
      getImportType fullMatch, r.quote⟩
  | none => none

/-- Scan one line with the four JS/TS patterns in source order:
`import ... from`, `export ... from`, `require(...)`, dynamic `import(...)`. -/
def scanLineJs (line : Str) (lineIdx : Nat) : List ImportMatch :=
  if isCommentOrEmpty line then []
  else
    let run := fun (try_ : Nat → Option PatRes) =>
      (execAllFrom try_ 0 (line.length + 1)).filterMap (emitJs line lineIdx)
    run (tryFromKw "import".toList line) ++
    run (tryFromKw "export".toList line) ++
    run (tryCall "require".toList line) ++
    run (tryCall "import".toList line)

/-- JS/TS document scanner (`ImportScanner.scanDocument`). -/
def scanDocument (lines : List Str) : List ImportMatch :=
  scanLinesWith scanLineJs lines 0

end ImportScanner

/-- Character class `[.\w]` of the Python import patterns. -/
def pyPathChar (c : Char) : Bool := (c = '.' || isWordChar c)

/-- Character class `[\w.]` of the Java import pattern (same class). -/
def javaPathChar (c : Char) : Bool := (isWordChar c || c = '.')

namespace MultiLanguageScanner

/-- Python comment / blank filter (`isPythonComment`). -/
def isPythonComment (line : Str) : Bool :=
  let t := strTrim line
  startsWithStr t "#".toList || t.isEmpty

/-- Java comment / blank filter (`isJavaComment`). -/
def isJavaComment (line : Str) : Bool :=
  let t := strTrim line
  startsWithStr t "//".toList || startsWithStr t "/*".toList ||
    startsWithStr t "*".toList || t.isEmpty

/-- Go comment / blank filter (`isGoComment`). -/
def isGoComment (line : Str) : Bool :=
  let t := strTrim line
  startsWithStr t "//".toList || startsWithStr t "/*".toList || t.isEmpty

/-- CSS comment / blank filter (`isCSSComment`). -/
def isCSSComment (line : Str) : Bool :=
  let t := strTrim line
  startsWithStr t "/*".toList || startsWithStr t "*".toList || t.isEmpty

/-- Matcher for the Python pattern `from\s+([.\w]+)\s+import` at position `i`.
The greedy `[.\w]+` group cannot donate characters to the following `\s+`,
so the captured module path is the maximal class run. -/
def tryPyFrom (line : Str) (i : Nat) : Option PatRes :=
  if litAt line i "from".toList then
    let w := wsRun line (i + 4)
    if w = 0 then none
    else
      let p := runOf pyPathChar line (i + 4 + w)
      if p.isEmpty then none
      else
        let w2 := wsRun line (i + 4 + w + p.length)
        if w2 = 0 then none
        else if litAt line (i + 4 + w + p.length + w2) "import".toList then
          some ⟨4 + w + p.length + w2 + 6, [], p⟩
        else none
  else none

/-- Matcher for the anchored Python pattern `^import\s+([.\w]+)(?:\s+as\s+\w+)?`
(the optional alias clause affects neither the capture nor the columns the
scanner uses). -/
def tryPyImport (line : Str) : Option PatRes :=
  if litAt line 0 "import".toList then
    let w := wsRun line 6
    if w = 0 then none
    else
      let p := runOf pyPathChar line (6 + w)
      if p.isEmpty then none else some ⟨6 + w + p.length, [], p⟩
  else none

/-- Emission step for Python `from ... import` matches: the source hardcodes
the start column as the match start plus `'from '.length`. -/
def emitPyFrom (lineIdx : Nat) (ir : Nat × PatRes) : ImportMatch :=
  ⟨ir.2.path, lineIdx, ir.1 + 5, ir.1 + 5 + ir.2.path.length, .imp, []⟩

/-- Emission step for the anchored Python `import ...` match: the source
hardcodes the start column as `'import '.length`. -/
def emitPyImport (lineIdx : Nat) (r : PatRes) : ImportMatch :=
  ⟨r.path, lineIdx, 7, 7 + r.path.length, .imp, []⟩

/-- Scan one Python line: every `from ... import` match, then the anchored
`import ...` pattern. -/
def scanLinePython (line : Str) (lineIdx : Nat) : List ImportMatch :=
  if isPythonComment line then []
  else
    ((execAllFrom (tryPyFrom line) 0 (line.length + 1)).map (emitPyFrom lineIdx)) ++
    (match tryPyImport line with
     | some r => [emitPyImport lineIdx r]
     | none => [])

/-- Python document scanner (`MultiLanguageScanner.scanPython`). -/
def scanPython (lines : List Str) : List ImportMatch :=
  scanLinesWith scanLinePython lines 0

/-- Second half of the Java pattern after the keyword and whitespace:
`([\w.]+)\s*;` starting at position `s`. -/
def tryJavaPath (line : Str) (i s : Nat) : Option PatRes :=
  let p := runOf javaPathChar line s
  if p.isEmpty then none
  else
    let m := s + p.length + wsRun line (s + p.length)
    if line.get? m == some ';' then some ⟨m + 1 - i, [], p⟩ else none

/-- Matcher for the Java pattern `import\s+(?:static\s+)?([\w.]+)\s*;` at
position `i`, with the regex preference for taking the optional `static`
group first and backtracking to the group-less parse if the remainder
fails. -/
def tryJava (line : Str) (i : Nat) : Option PatRes :=
  if litAt line i "import".toList then
    let w := wsRun line (i + 6)
    if w = 0 then none
    else
      let s0 := i + 6 + w
      let staticRes :=
        if litAt line s0 "static".toList && decide (1 ≤ wsRun line (s0 + 6)) then
          tryJavaPath line i (s0 + 6 + wsRun line (s0 + 6))
        else none
      match staticRes with
      | some r => some r
      | none => tryJavaPath line i s0
  else none

/-- Emission step for Java matches; the path start column comes from `indexOf`
of the captured path inside the full match, as in the source. -/
def emitJava (line : Str) (lineIdx : Nat) (ir : Nat × PatRes) : Option ImportMatch :=
  let fullMatch := sub line ir.1 (ir.1 + ir.2.len)
  match findSub fullMatch ir.2.path with
  | some qi =>
    some ⟨ir.2.path, lineIdx, ir.1 + qi, ir.1 + qi + ir.2.path.length, .imp, []⟩
  | none => none

/-- Scan one Java line. -/
def scanLineJava (line : Str) (lineIdx : Nat) : List ImportMatch :=
  if isJavaComment line then []
  else
    (execAllFrom (tryJava line) 0 (line.length + 1)).filterMap (emitJava line lineIdx)

/-- Java document scanner (`MultiLanguageScanner.scanJava`). -/
def scanJava (lines : List Str) : List ImportMatch :=
  scanLinesWith scanLineJava lines 0

/-- Matcher for the Go pattern `import\s+(['"])(.*?)\1` at position `i`. -/
def tryGoSingle (line : Str) (i : Nat) : Option PatRes :=
  if litAt line i "import".toList then
    let w := wsRun line (i + 6)
    if w = 0 then none
    else
      match line.get? (i + 6 + w) with
      | some q =>
        if isQuote q then
          let b := i + 6 + w
          match findSub (sub line (b + 1) line.length) [q] with
          | some k0 =>
            let k := b + 1 + k0
            some ⟨k + 1 - i, [q], sub line (b + 1) k⟩
          | none => none
        else none
      | none => none
  else none

/-- Matcher for the Go block pattern `(['"])(.*?)\1` at position `i`. -/
def tryGoBlock (line : Str) (i : Nat) : Option PatRes :=
  match line.get? i with
  | some q =>
    if isQuote q then
      match findSub (sub line (i + 1) line.length) [q] with
      | some k0 =>
        let k := i + 1 + k0
        some ⟨k + 1 - i, [q], sub line (i + 1) k⟩
      | none => none
    else none
  | none => none

/-- Test for `import\s*\(` anywhere on a line (`/import\s*\(/.test`). -/
def goImportBlockStart (line : Str) : Bool :=
  (List.range (line.length + 1)).any (fun i =>
    litAt line i "import".toList &&
    line.get? (i + 6 + wsRun line (i + 6)) == some '(')

/-- Emission step for single-line Go matches; column from
`indexOf(quote + packagePath)` plus the quote length, as in the source. -/
def emitGoSingle (line : Str) (lineIdx : Nat) (ir : Nat × PatRes) : Option ImportMatch :=
  let fullMatch := sub line ir.1 (ir.1 + ir.2.len)
  match findSub fullMatch (ir.2.quote ++ ir.2.path) with
  | some qi =>
    some ⟨ir.2.path, lineIdx, ir.1 + qi + ir.2.quote.length,
      ir.1 + qi + ir.2.quote.length + ir.2.path.length, .imp, ir.2.quote⟩
  | none => none

/-- Emission step for Go block-line matches; the path starts at
`matchStart + quote.length`. -/
def emitGoBlock (lineIdx : Nat) (ir : Nat × PatRes) : ImportMatch :=
  ⟨ir.2.path, lineIdx, ir.1 + ir.2.quote.length,
    ir.1 + ir.2.quote.length + ir.2.path.length, .imp, ir.2.quote⟩

/-- Single-line Go matches. -/
def goSingleMatches (line : Str) (lineIdx : Nat) : List ImportMatch :=
  (execAllFrom (tryGoSingle line) 0 (line.length + 1)).filterMap (emitGoSingle line lineIdx)

/-- Go block-line matches. -/
def goBlockMatches (line : Str) (lineIdx : Nat) : List ImportMatch :=
  (execAllFrom (tryGoBlock line) 0 (line.length + 1)).map (emitGoBlock lineIdx)

/-- Go scanner body carrying the `inImportBlock` flag across lines. -/
def scanGoLines : List Str → Nat → Bool → List ImportMatch
  | [], _, _ => []
  | l :: ls, i, inBlock =>
    if isGoComment l then scanGoLines ls (i + 1) inBlock
    else if goImportBlockStart l then scanGoLines ls (i + 1) true
    else if inBlock && l.any (· = ')') then scanGoLines ls (i + 1) false
    else
      goSingleMatches l i ++ (if inBlock then goBlockMatches l i else []) ++
        scanGoLines ls (i + 1) inBlock

/-- Go document scanner (`MultiLanguageScanner.scanGo`). -/
def scanGo (lines : List Str) : List ImportMatch :=
  scanGoLines lines 0 false

/-- Closing parse for an unquoted `url(...)` path: the lazy `.*?` stops at the
first position from which optional whitespace reaches a closing parenthesis,
i.e. just before the whitespace run that precedes the first `)`. -/
def cssBareClose (line : Str) (b : Nat) : Option (Nat × Nat) :=
  match findSub (sub line b line.length) [')'] with
  | none => none
  | some r0 =>
    let r := b + r0
    let t := ((sub line b r).reverse.takeWhile isWs).length
    some (r - t, r)

/-- Matcher for the CSS pattern `@import\s+url\s*\(\s*(['"]?)(.*?)\1\s*\)` at
position `i`, with the optional-quote group backtracking to an empty capture
when no quoted parse completes. -/
def tryCssUrl (line : Str) (i : Nat) : Option PatRes :=
  if litAt line i "@import".toList then
    let w := wsRun line (i + 7)
    if w = 0 then none
    else if litAt line (i + 7 + w) "url".toList then
      let u := i + 7 + w + 3
      let a := u + wsRun line u
      if line.get? a == some '(' then
        let b := a + 1 + wsRun line (a + 1)
        let bare :=
          match cssBareClose line b with
          | some (e, r) => some (⟨r + 1 - i, [], sub line b e⟩ : PatRes)
          | none => none
        match line.get? b with
        | some q =>
          if isQuote q then
            match findCloseCall line q (b + 1) line.length with
            | some (k, m) => some ⟨m + 1 - i, [q], sub line (b + 1) k⟩
            | none => bare
          else bare
        | none => none
      else none
    else none
  else none

/-- Matcher for the CSS pattern `@import\s+(['"])(.*?)\1` at position `i`. -/
def tryCssDirect (line : Str) (i : Nat) : Option PatRes :=
  if litAt line i "@import".toList then
    let w := wsRun line (i + 7)
    if w = 0 then none
    else
      match line.get? (i + 7 + w) with
      | some q =>
        if isQuote q then
          let b := i + 7 + w
          match findSub (sub line (b + 1) line.length) [q] with
          | some k0 =>
            let k := b + 1 + k0
            some ⟨k + 1 - i, [q], sub line (b + 1) k⟩
          | none => none
        else none
      | none => none
  else none

/-- Emission step for CSS `url(...)` matches; the source searches the full
match for `quote + path + quote` (or the bare path when unquoted) and offsets
by the quote length. -/
def emitCssUrl (line : Str) (lineIdx : Nat) (ir : Nat × PatRes) : Option ImportMatch :=
  let fullMatch := sub line ir.1 (ir.1 + ir.2.len)
  let pathPattern :=
    if ir.2.quote.isEmpty then ir.2.path
    else ir.2.quote ++ ir.2.path ++ ir.2.quote
  match findSub fullMatch pathPattern with
  | some qi =>
    some ⟨ir.2.path, lineIdx, ir.1 + qi + ir.2.quote.length,
      ir.1 + qi + ir.2.quote.length + ir.2.path.length, .imp, ir.2.quote⟩
  | none => none

/-- Emission step for CSS `@import "path"` matches; the source searches the
full match for `quote + path`. -/
def emitCssDirect (line : Str) (lineIdx : Nat) (ir : Nat × PatRes) : Option ImportMatch :=
  let fullMatch := sub line ir.1 (ir.1 + ir.2.len)
  match findSub fullMatch (ir.2.quote ++ ir.2.path) with
  | some qi =>
    some ⟨ir.2.path, lineIdx, ir.1 + qi + ir.2.quote.length,
      ir.1 + qi + ir.2.quote.length + ir.2.path.length, .imp, ir.2.quote⟩
  | none => none

/-- CSS `url(...)` matches. -/
def cssUrlMatches (line : Str) (lineIdx : Nat) : List ImportMatch :=
  (execAllFrom (tryCssUrl line) 0 (line.length + 1)).filterMap (emitCssUrl line lineIdx)

/-- CSS `@import "path"` matches. -/
def cssDirectMatches (line : Str) (lineIdx : Nat) : List ImportMatch :=
  (execAllFrom (tryCssDirect line) 0 (line.length + 1)).filterMap (emitCssDirect line lineIdx)

/-- Scan one CSS line: `url(...)` matches first, then direct-quote matches. -/
def scanLineCSS (line : Str) (lineIdx : Nat) : List ImportMatch :=
  if isCSSComment line then []
  else cssUrlMatches line lineIdx ++ cssDirectMatches line lineIdx

/-- CSS document scanner (`MultiLanguageScanner.scanCSS`). -/
def scanCSS (lines : List Str) : List ImportMatch :=
  scanLinesWith scanLineCSS lines 0

/-- Language dispatch of `MultiLanguageScanner.scanDocument`; the per-language
enable flags default to true and are modelled as enabled. -/
def scanDocument (languageId : Str) (lines : List Str) : List ImportMatch :=
  if languageId == "python".toList then scanPython lines
  else if languageId == "java".toList then scanJava lines
  else if languageId == "go".toList then scanGo lines
  else if languageId == "css".toList || languageId == "scss".toList ||
      languageId == "less".toList then scanCSS lines
  else []

end MultiLanguageScanner

/-- Drop a suffix from a string when it ends with it. -/
def stripSuffix (l s : Str) : Str :=
  if endsWithStr l s then l.take (l.length - s.length) else l

/-- Strip one of the JS/TS extensions, as the regex
`\.(js|ts|jsx|tsx|mjs|cjs)$` does. -/
def stripJsExt (l : Str) : Str :=
  if endsWithStr l ".js".toList then l.take (l.length - 3)
  else if endsWithStr l ".ts".toList then l.take (l.length - 3)
  else if endsWithStr l ".jsx".toList then l.take (l.length - 4)
  else if endsWithStr l ".tsx".toList then l.take (l.length - 4)
  else if endsWithStr l ".mjs".toList then l.take (l.length - 4)
  else if endsWithStr l ".cjs".toList then l.take (l.length - 4)
  else l

/-- Node `path.posix.basename`: drop trailing slashes, then keep the part
after the last remaining slash. -/
def posixBasename (p : Str) : Str :=
  let q := (p.reverse.dropWhile (· = '/')).reverse
  if q.isEmpty then (if p.isEmpty then [] else "/".toList)
  else (q.reverse.takeWhile (· ≠ '/')).reverse

/-- Node `path.posix.dirname`. -/
def posixDirname (p : Str) : Str :=
  let q := (p.reverse.dropWhile (· = '/')).reverse
  let d := (q.reverse.dropWhile (· ≠ '/')).reverse
  if d.isEmpty then ".".toList
  else
    let d2 := (d.reverse.dropWhile (· = '/')).reverse
    if d2.isEmpty then "/".toList else d2

/-- Node `path.extname`: the final dot-suffix of the basename, empty when the
basename has no dot or only a leading dot. -/
def posixExtname (p : Str) : Str :=
  let b := posixBasename p
  let r := b.reverse.takeWhile (· ≠ '.')
  if r.length = b.length then []
  else if b.length - (r.length + 1) = 0 then []
  else '.' :: r.reverse

/-- Node `path.basename(p, ext)`: basename with the extension suffix removed
when it matches and is not the whole basename. -/
def posixBasenameExt (p ext : Str) : Str :=
  let b := posixBasename p
  if !ext.isEmpty && b ≠ ext && endsWithStr b ext then b.take (b.length - ext.length)
  else b

/-- Drop the common prefix of two segment lists. -/
def dropCommon : List Str → List Str → List Str × List Str
  | a :: as_, b :: bs => if a == b then dropCommon as_ bs else (a :: as_, b :: bs)
  | as_, bs => (as_, bs)

/-- Node `path.posix.relative` for already-absolute normalized paths: drop the
common segment prefix, then one `..` per remaining source segment followed by
the remaining target segments. -/
def posixRelative (fromP toP : Str) : Str :=
  let f := (splitOnChar '/' fromP).filter (fun s => !s.isEmpty)
  let t := (splitOnChar '/' toP).filter (fun s => !s.isEmpty)
  let ft := dropCommon f t
  joinWithChar '/' (ft.1.map (fun _ => "..".toList) ++ ft.2)

namespace PathUtils

/-- Backslash-to-slash normalization (`PathUtils.normalizePath`). -/
def normalizePath (p : Str) : Str :=
  p.map (fun c => if c = '\\' then '/' else c)

/-- Basename with the JS extension stripped
(`PathUtils.getFileNameWithoutExtension`). -/
def getFileNameWithoutExtension (p : Str) : Str :=
  stripJsExt (posixBasename p)

end PathUtils

namespace ImportScanner

/-- Match classifier of the JS scanner (`ImportScanner.doesImportMatchFile`).
It consults no alias map: a path with no leading `.` or `/` is treated as an
alias whenever it starts with `@/` or `~/` or merely contains a slash, and is
then compared by terminal segment; a slash-free bare name is classified as an
npm package and never matches. -/
def doesImportMatchFile (importMatch : ImportMatch) (oldFileName : Str)
    (_currentFilePath _oldFilePath : Str) : Bool :=
  let importPath := importMatch.importPath
  let isAlias := !startsWithStr importPath ".".toList &&
    !startsWithStr importPath "/".toList &&
    (startsWithStr importPath "@/".toList || startsWithStr importPath "~/".toList ||
      importPath.any (· = '/'))
  if isAlias then
    stripJsExt (posixBasename importPath) == oldFileName
  else if !startsWithStr importPath ".".toList && !startsWithStr importPath "/".toList then
    false
  else
    stripJsExt (posixBasename importPath) == oldFileName

end ImportScanner

namespace MultiLanguageScanner

/-- Python match classifier (`doesPythonImportMatchFile`): compare the final
dotted segment with the file name (a `.py` suffix stripped). -/
def doesPythonImportMatchFile (importPath oldFileName : Str) : Bool :=
  let parts := splitOnChar '.' importPath
  let moduleName := parts.getLastD []
  moduleName == stripSuffix oldFileName ".py".toList

/-- Java match classifier (`doesJavaImportMatchFile`): the final segment (a
regular import) or the second-to-last segment (a static import) must equal
the class file name. -/
def doesJavaImportMatchFile (importPath oldFileName : Str) : Bool :=
  let parts := splitOnChar '.' importPath
  let fileNameWithoutExt := stripSuffix oldFileName ".java".toList
  let lastPart := parts.getLastD []
  let secondToLastPart := if 1 < parts.length then parts.getD (parts.length - 2) [] else []
  lastPart == fileNameWithoutExt || secondToLastPart == fileNameWithoutExt

/-- Go match classifier (`doesGoImportMatchFile`): compare the final slash
segment with the file name (a `.go` suffix stripped). -/
def doesGoImportMatchFile (importPath oldFileName : Str) : Bool :=
  let parts := splitOnChar '/' importPath
  parts.getLastD [] == stripSuffix oldFileName ".go".toList

/-- CSS match classifier (`doesCSSImportMatchFile`): compare the final slash
segment (extension kept) with the renamed file name. -/
def doesCSSImportMatchFile (importPath oldFileName : Str) : Bool :=
  let parts := splitOnChar '/' importPath
  parts.getLastD [] == oldFileName

end MultiLanguageScanner

/-- Alias-resolver capability object threaded through the rewriters as a
loosely-typed value in the source: each method may be absent, and a returned
empty string is falsy in the source's truthiness checks. -/
structure ResolverM where
  filePathToAlias : Option (Str → Option Str) := none
  aliasedQuery : Option (Str → Bool) := none

/-- Resolver outcome as the source's truthiness test sees it: `some a` with
nonempty `a` is truthy. -/
def resolverAlias (r : ResolverM) (toPath : Str) : Option Str :=
  match r.filePathToAlias with
  | some f =>
    match f toPath with
    | some a => if a.isEmpty then none else some a
    | none => none
  | none => none

/-- Truthiness of the `isAliasedImport` capability call. -/
def resolverAliased (r : ResolverM) (importText : Str) : Bool :=
  match r.aliasedQuery with
  | some f => f importText
  | none => false

namespace PathUtils

/-- Relative-path fallback of `PathUtils.toImportPath`
(`PathUtils.getRelativePath`). -/
def getRelativePath (fromPath toPath : Str) : Str :=
  let fromDir := posixDirname fromPath
  let rel := posixRelative fromDir toPath
  if !startsWithStr rel ".".toList && !startsWithStr rel "/".toList then
    "./".toList ++ rel
  else rel

/-- JS/TS rewriter (`PathUtils.handleJavaScriptImport`): alias-style originals
are re-aliased via the resolver or patched in the final segment; otherwise a
POSIX relative path from the importing file's directory, extension stripped,
with a `./` prefix added when needed. -/
def jsRelativeImport (toPath fromPath : Str) : Str :=
  let fromDir := posixDirname fromPath
  let rel := stripJsExt (posixRelative fromDir toPath)
  if !startsWithStr rel ".".toList && !startsWithStr rel "/".toList then
    "./".toList ++ rel
  else rel

/-- JS/TS rewriter main branch structure. -/
def handleJavaScriptImport (toPath fromPath : Str) (originalImport : Option Str)
    (resolver : ResolverM) : Str :=
  match originalImport with
  | some o =>
    if !startsWithStr o ".".toList && !startsWithStr o "/".toList &&
        (startsWithStr o "@/".toList || startsWithStr o "~/".toList || o.any (· = '/')) then
      match resolverAlias resolver toPath with
      | some a => a
      | none =>
        let pathParts := splitOnChar '/' o
        let newFileName := stripJsExt (posixBasename toPath)
        joinWithChar '/' (pathParts.dropLast ++ [newFileName])
    else jsRelativeImport toPath fromPath
  | none => jsRelativeImport toPath fromPath

/-- Dotted module path for the Python relative-import rewrite: one leading dot
plus one more per `..` segment of the relative path, then the remaining
segments joined with dots. -/
def pyRelativeNotation (rel : Str) : Str :=
  let parts := splitOnChar '/' rel
  let step := fun (acc : Nat × List Str) (part : Str) =>
    if part == ".".toList then acc
    else if part == "..".toList then (acc.1 + 1, acc.2)
    else (acc.1, acc.2 ++ [part])
  let dm := parts.foldl step (1, [])
  List.replicate dm.1 '.' ++ joinWithChar '.' dm.2

/-- First match of the project-root pattern `\/(src|lib|app|pkg)\/(.+)$`:
returns the root segment and the nonempty remainder after it. -/
def findPyRoot (p : Str) : Option (Str × Str) :=
  let roots := ["src".toList, "lib".toList, "app".toList, "pkg".toList]
  match (List.range (p.length + 1)).find? (fun i =>
    roots.any (fun r =>
      litAt p i ('/' :: r ++ "/".toList) && decide (i + r.length + 2 < p.length))) with
  | some i =>
    match roots.find? (fun r =>
        litAt p i ('/' :: r ++ "/".toList) && decide (i + r.length + 2 < p.length)) with
    | some r => some (r, p.drop (i + r.length + 2))
    | none => none
  | none => none

/-- Python rewriter (`PathUtils.handlePythonImport`). -/
def handlePythonImport (toPath fromPath : Str) (originalImport : Option Str)
    (resolver : ResolverM) : Str :=
  let isAlias :=
    match originalImport with
    | some o => resolverAliased resolver o
    | none => false
  let aliased := if isAlias then resolverAlias resolver toPath else none
  match aliased with
  | some a => a
  | none =>
    let relStyle :=
      match originalImport with
      | some o => startsWithStr o ".".toList
      | none => false
    if relStyle then
      let fromDir := posixDirname fromPath
      let rel := stripSuffix (posixRelative fromDir toPath) ".py".toList
      pyRelativeNotation rel
    else
      let toPathNormalized := stripSuffix (normalizePath toPath) ".py".toList
      match findPyRoot toPathNormalized with
      | some rf =>
        rf.1 ++ '.' :: (rf.2.map (fun c => if c = '/' then '.' else c))
      | none =>
        match originalImport with
        | some o =>
          let importParts := splitOnChar '.' o
          let toPathSegments := splitOnChar '/' toPathNormalized
          let newFileName := toPathSegments.getLastD []
          let rootPackage := importParts.headD []
          match toPathSegments.findIdx? (· == rootPackage) with
          | some rootIndex =>
            joinWithChar '.' (toPathSegments.drop rootIndex)
          | none =>
            joinWithChar '.' (importParts.dropLast ++ [newFileName])
        | none => posixBasenameExt toPath ".py".toList

/-- Java rewriter (`PathUtils.handleJavaImport`). -/
def handleJavaImport (toPath _fromPath : Str) (originalImport : Option Str)
    (resolver : ResolverM) : Str :=
  match resolverAlias resolver toPath with
  | some packagePath =>
    (match originalImport with
     | some o =>
       if o.any (· = '.') then
         let parts := splitOnChar '.' o
         let lastPart := parts.getLastD []
         if !lastPart.isEmpty &&
             lastPart.headD ' ' = (lastPart.headD ' ').toLower then
           packagePath ++ '.' :: lastPart
         else packagePath
       else packagePath
     | none => packagePath)
  | none =>
    match originalImport with
    | some o =>
      if o.any (· = '.') then
        let parts := splitOnChar '.' o
        let newClassName := stripSuffix (posixBasename toPath) ".java".toList
        let lastPart := parts.getLastD []
        let isLastPartClass := !lastPart.isEmpty &&
          lastPart.headD ' ' = (lastPart.headD ' ').toUpper
        let parts2 :=
          if isLastPartClass then parts.dropLast ++ [newClassName]
          else if 1 < parts.length then
            parts.take (parts.length - 2) ++ [newClassName] ++ parts.drop (parts.length - 1)
          else parts
        joinWithChar '.' parts2
      else stripSuffix (posixBasename toPath) ".java".toList
    | none => stripSuffix (posixBasename toPath) ".java".toList

/-- Go rewriter (`PathUtils.handleGoImport`). -/
def handleGoImport (toPath _fromPath : Str) (originalImport : Option Str)
    (resolver : ResolverM) : Str :=
  match resolverAlias resolver toPath with
  | some importPath => importPath
  | none =>
    let newPackageName := (splitOnChar '/' (posixDirname toPath)).getLastD []
    match originalImport with
    | some o =>
      if o.any (· = '/') then
        joinWithChar '/' ((splitOnChar '/' o).dropLast ++ [newPackageName])
      else newPackageName
    | none => newPackageName

/-- CSS rewriter (`PathUtils.handleCSSImport`): like JS but the extension is
kept. -/
def handleCSSImport (toPath fromPath : Str) (originalImport : Option Str)
    (resolver : ResolverM) : Str :=
  let isAlias :=
    match originalImport with
    | some o => resolverAliased resolver o
    | none => false
  let aliased := if isAlias then resolverAlias resolver toPath else none
  match aliased with
  | some a => a
  | none =>
    let fromDir := posixDirname fromPath
    let rel := posixRelative fromDir toPath
    if !startsWithStr rel ".".toList && !startsWithStr rel "/".toList then
      "./".toList ++ rel
    else rel

/-- Language sniffing of `PathUtils.toImportPath` when no language id is
passed. -/
def sniffLanguage (toPath : Str) : Str :=
  if endsWithStr toPath ".py".toList then "python".toList
  else if endsWithStr toPath ".java".toList then "java".toList
  else if endsWithStr toPath ".go".toList then "go".toList
  else if endsWithStr toPath ".css".toList || endsWithStr toPath ".scss".toList ||
      endsWithStr toPath ".sass".toList || endsWithStr toPath ".less".toList then
    "css".toList
  else "javascript".toList

/-- Central rewriter dispatch (`PathUtils.toImportPath`). -/
def toImportPath (fromPath toPath : Str) (originalImport : Option Str)
    (resolver : ResolverM) (languageId : Option Str) : Str :=
  let lang :=
    match languageId with
    | some l => l
    | none => sniffLanguage toPath
  if lang == "javascript".toList || lang == "typescript".toList then
    handleJavaScriptImport toPath fromPath originalImport resolver
  else if lang == "python".toList then
    handlePythonImport toPath fromPath originalImport resolver
  else if lang == "java".toList then
    handleJavaImport toPath fromPath originalImport resolver
  else if lang == "go".toList then
    handleGoImport toPath fromPath originalImport resolver
  else if lang == "css".toList || lang == "scss".toList || lang == "less".toList then
    handleCSSImport toPath fromPath originalImport resolver
  else getRelativePath fromPath toPath

end PathUtils

/-- Quote-style configuration of the formatter. -/
inductive QuoteStyle where
  | single
  | double
  | auto
deriving Repr, DecidableEq

/-- Semicolon-style configuration of the formatter. -/
inductive SemicolonStyle where
  | always
  | never
  | auto
deriving Repr, DecidableEq

/-- Formatter configuration (`linker.formatting.quoteStyle` /
`linker.formatting.semicolons`). -/
structure FormatterConfig where
  quoteStyle : QuoteStyle
  semicolonStyle : SemicolonStyle
deriving Repr, DecidableEq

/-- Character class `[\w./]` of the Go formatter patterns. -/
def goPathChar (c : Char) : Bool := (isWordChar c || c = '.' || c = '/')

namespace ImportFormatter

/-- Go-statement test (`isGoImport`): `^\s*import\s+["'][\w./]+["']`. -/
def isGoImport (importStatement : Str) : Bool :=
  let i0 := wsRun importStatement 0
  if litAt importStatement i0 "import".toList then
    let w := wsRun importStatement (i0 + 6)
    if w = 0 then false
    else
      match importStatement.get? (i0 + 6 + w) with
      | some q =>
        if isQuote q then
          let p := runOf goPathChar importStatement (i0 + 6 + w + 1)
          if p.isEmpty then false
          else
            match importStatement.get? (i0 + 6 + w + 1 + p.length) with
            | some q2 => isQuote q2
            | none => false
        else false
      | none => false
  else false

/-- Go-statement rewrite (`formatGoImport`):
`^(\s*import\s+)(["'])([\w./]+)(["'].*)$` with the path group replaced. -/
def formatGoImport (originalImport newPath : Str) : Str :=
  let i0 := wsRun originalImport 0
  if litAt originalImport i0 "import".toList then
    let w := wsRun originalImport (i0 + 6)
    if w = 0 then originalImport
    else
      match originalImport.get? (i0 + 6 + w) with
      | some q =>
        if isQuote q then
          let b := i0 + 6 + w
          let p := runOf goPathChar originalImport (b + 1)
          if p.isEmpty then originalImport
          else
            match originalImport.get? (b + 1 + p.length) with
            | some q2 =>
              if isQuote q2 then
                originalImport.take (b + 1) ++ newPath ++
                  originalImport.drop (b + 1 + p.length)
              else originalImport
            | none => originalImport
        else originalImport
      | none => originalImport
  else originalImport

/-- Python-statement test (`isPythonImport`):
`^(\s*)(from\s+[\w.]+\s+import|import\s+[\w.]+)`. -/
def isPythonImport (importStatement : Str) : Bool :=
  let i0 := wsRun importStatement 0
  let fromAlt :=
    if litAt importStatement i0 "from".toList then
      let w := wsRun importStatement (i0 + 4)
      if w = 0 then false
      else
        let p := runOf javaPathChar importStatement (i0 + 4 + w)
        if p.isEmpty then false
        else
          let w2 := wsRun importStatement (i0 + 4 + w + p.length)
          if w2 = 0 then false
          else litAt importStatement (i0 + 4 + w + p.length + w2) "import".toList
    else false
  let importAlt :=
    if litAt importStatement i0 "import".toList then
      let w := wsRun importStatement (i0 + 6)
      if w = 0 then false
      else !(runOf javaPathChar importStatement (i0 + 6 + w)).isEmpty
    else false
  fromAlt || importAlt

/-- Python-statement rewrite (`formatPythonImport`). -/
def formatPythonImport (originalImport newPath : Str) : Str :=
  let i0 := wsRun originalImport 0
  let fromRes :=
    if litAt originalImport i0 "from".toList then
      let w := wsRun originalImport (i0 + 4)
      if w = 0 then none
      else
        let p := runOf javaPathChar originalImport (i0 + 4 + w)
        if p.isEmpty then none
        else
          let pe := i0 + 4 + w + p.length
          let w2 := wsRun originalImport pe
          if w2 = 0 then none
          else if litAt originalImport (pe + w2) "import".toList then
            some (originalImport.take (i0 + 4 + w) ++ newPath ++ originalImport.drop pe)
          else none
    else none
  match fromRes with
  | some r => r
  | none =>
    if litAt originalImport i0 "import".toList then
      let w := wsRun originalImport (i0 + 6)
      if w = 0 then originalImport
      else
        let p := runOf javaPathChar originalImport (i0 + 6 + w)
        if p.isEmpty then originalImport
        else
          originalImport.take (i0 + 6 + w) ++ newPath ++
            originalImport.drop (i0 + 6 + w + p.length)
    else originalImport

/-- Quote detection (`detectQuoteStyle`): a double quote anywhere wins, then a
single quote, then the single-quote default. -/
def detectQuoteStyle (importStatement : Str) : Char :=
  if importStatement.any (· = dq) then dq
  else if importStatement.any (· = sq) then sq
  else sq

/-- Candidate search for the `import ... from` / `export ... from` rebuild
patterns: the lazy `.*?from\s+` group stops at the first `from` that is
followed by whitespace and a quote, and the lazy path group at the first
following quote of either kind at distance at least two. -/
def findFromCandidate (line : Str) : Nat → Nat → Option (Nat × Nat)
  | _, 0 => none
  | f, fuel + 1 =>
    if line.length < f + 4 then none
    else if litAt line f "from".toList then
      let w2 := wsRun line (f + 4)
      if 0 < w2 then
        match line.get? (f + 4 + w2) with
        | some q =>
          if isQuote q then
            let qpos := f + 4 + w2
            match (List.range (line.length + 1)).find? (fun k =>
                decide (qpos + 2 ≤ k) && (line.get? k).any isQuote) with
            | some k => some (qpos, k)
            | none => findFromCandidate line (f + 1) fuel
          else findFromCandidate line (f + 1) fuel
        | none => findFromCandidate line (f + 1) fuel
      else findFromCandidate line (f + 1) fuel
    else findFromCandidate line (f + 1) fuel

/-- Rebuild for `^(\s*)(KW\s+.*?from\s+)['"](.+?)['"](.*)$` where `KW` is
`import` or `export`. -/
def buildFromStyle (kw : Str) (originalImport newPath : Str) (quote : Char) :
    Option Str :=
  let n := wsRun originalImport 0
  if litAt originalImport n kw then
    if wsRun originalImport (n + kw.length) = 0 then none
    else
      match findFromCandidate originalImport (n + kw.length + 1)
          (originalImport.length + 1) with
      | some qk =>
        some (originalImport.take qk.1 ++ quote ::
          newPath ++ quote :: originalImport.drop (qk.2 + 1))
      | none => none
  else none

/-- Candidate search for the call-style rebuild patterns
`^(\s*)(.*?KW\s*\(\s*)['"](.+?)['"](\s*\).*)$`: the keyword occurrence, the
opening quote and the closing quote (of either kind, followed by optional
whitespace and a closing parenthesis). -/
def findCallCandidate (kw : Str) (line : Str) : Nat → Nat → Option (Nat × Nat)
  | _, 0 => none
  | r, fuel + 1 =>
    if line.length < r + kw.length then none
    else if litAt line r kw then
      let a := r + kw.length + wsRun line (r + kw.length)
      if line.get? a == some '(' then
        let b := a + 1 + wsRun line (a + 1)
        match line.get? b with
        | some q =>
          if isQuote q then
            match (List.range (line.length + 1)).find? (fun k =>
                decide (b + 2 ≤ k) && (line.get? k).any isQuote &&
                  line.get? (k + 1 + wsRun line (k + 1)) == some ')') with
            | some k => some (b, k)
            | none => findCallCandidate kw line (r + 1) fuel
          else findCallCandidate kw line (r + 1) fuel
        | none => findCallCandidate kw line (r + 1) fuel
      else findCallCandidate kw line (r + 1) fuel
    else findCallCandidate kw line (r + 1) fuel

/-- Rebuild for the require / dynamic-import patterns. -/
def buildCallStyle (kw : Str) (originalImport newPath : Str) (quote : Char) :
    Option Str :=
  let n := wsRun originalImport 0
  match findCallCandidate kw originalImport n (originalImport.length + 1) with
  | some bk =>
    some (originalImport.take bk.1 ++ quote ::
      newPath ++ quote :: originalImport.drop (bk.2 + 1))
  | none => none

/-- Fallback rebuild: replace the first `(['"])(.+?)\1` occurrence. -/
def buildFallback (originalImport newPath : Str) (quote : Char) : Str :=
  match (List.range (originalImport.length + 1)).find? (fun i =>
      (originalImport.get? i).any isQuote &&
        ((List.range (originalImport.length + 1)).any (fun k =>
          decide (i + 2 ≤ k) && originalImport.get? k == originalImport.get? i))) with
  | some i =>
    match (List.range (originalImport.length + 1)).find? (fun k =>
        decide (i + 2 ≤ k) && originalImport.get? k == originalImport.get? i) with
    | some k =>
      originalImport.take i ++ quote :: newPath ++ quote :: originalImport.drop (k + 1)
    | none => originalImport
  | none => originalImport

/-- Statement rebuild (`buildFormattedImport`): the four staged patterns in
source order, then the fallback replacement. -/
def buildFormattedImport (originalImport newPath : Str) (quote : Char) : Str :=
  match buildFromStyle "import".toList originalImport newPath quote with
  | some r => r
  | none =>
    match buildCallStyle "require".toList originalImport newPath quote with
    | some r => r
    | none =>
      match buildCallStyle "import".toList originalImport newPath quote with
      | some r => r
      | none =>
        match buildFromStyle "export".toList originalImport newPath quote with
        | some r => r
        | none => buildFallback originalImport newPath quote

/-- Statement formatter (`ImportFormatter.formatImportPath`): Go and Python
shapes take their dedicated rewrites; otherwise the quote character follows
the configured style (configuration override, then the quote detected on the
original).  The configured semicolon style is never consulted here — the text
after the closing quote is copied from the original statement verbatim. -/
def formatImportPath (cfg : FormatterConfig) (originalImport newPath : Str) : Str :=
  if isGoImport originalImport then formatGoImport originalImport newPath
  else if isPythonImport originalImport then formatPythonImport originalImport newPath
  else
    let originalQuote := detectQuoteStyle originalImport
    let quote :=
      match cfg.quoteStyle with
      | .auto => originalQuote
      | .single => sq
      | .double => dq
    buildFormattedImport originalImport newPath quote

end ImportFormatter

/-- One text replacement of a `FileEdit`, in (line, column) coordinates of the
original file content. -/
structure TextEditM where
  line : Nat
  startCol : Nat
  endCol : Nat
  newText : Str
deriving Repr, DecidableEq

/-- Per-file edit batch (`renameHandler.ts` interface `FileEdit`); the
display-only `summary` string is not modelled. -/
structure FileEditM where
  filePath : Str
  edits : List TextEditM
deriving Repr, DecidableEq

/-- A candidate source file: absolute POSIX path, editor language id and line
contents. -/
structure SrcFile where
  path : Str
  languageId : Str
  lines : List Str
deriving Repr, DecidableEq

/-- Full text of a file as the byte-content pre-filter reads it. -/
def fileText (f : SrcFile) : Str := joinWithChar '\n' f.lines

/-- Apply one span edit to its line, for stating what a replacement yields. -/
def applyEditToLine (line : Str) (e : TextEditM) : Str :=
  line.take e.startCol ++ e.newText ++ line.drop e.endCol

/-- Word-boundary global replacement `new RegExp('\\b' + name + '\\b', 'g')`
used by the folder-rename fallback.  A boundary holds where word-char-ness
changes between neighbouring positions. -/
def wordBoundaryAt (l : Str) (i : Nat) : Bool :=
  let a := match l.get? (i - 1) with
    | some c => if i = 0 then false else isWordChar c
    | none => false
  let b := match l.get? i with
    | some c => isWordChar c
    | none => false
  a != b

/-- Helper for `replaceWordAll`: scan positions left to right, replacing each
boundary-delimited occurrence and resuming after it. -/
def replaceWordAllFrom (name new : Str) : Str → Nat → Str
  | l, 0 => l
  | l, fuel + 1 =>
    match (List.range (l.length + 1)).find? (fun i =>
        litAt l i name && wordBoundaryAt l i && wordBoundaryAt l (i + name.length)) with
    | some i =>
      let rest := replaceWordAllFrom name new (l.drop (i + name.length)) fuel
      l.take i ++ new ++ rest
    | none => l

/-- Global word-boundary replacement. -/
def replaceWordAll (l name new : Str) : Str :=
  if name.isEmpty then l else replaceWordAllFrom name new l (l.length + 1)

/-- Per-language alias resolvers held by the rename handler. -/
structure Resolvers where
  js : ResolverM := {}
  py : ResolverM := {}
  go : ResolverM := {}
  css : ResolverM := {}

/-- Membership of a language id in the multi-language scanner family
(`['python', 'java', 'go', 'css', 'scss', 'less']`). -/
def isMultiLang (languageId : Str) : Bool :=
  languageId == "python".toList || languageId == "java".toList ||
  languageId == "go".toList || languageId == "css".toList ||
  languageId == "scss".toList || languageId == "less".toList

namespace RenameHandler

/-- Byte-content pre-filter of `scanFileForImports`: the old base name must
occur in one of several surface forms before the file is parsed. -/
def hasReference (text baseNameNoExt baseNameWithExt : Str) : Bool :=
  containsSub text baseNameNoExt ||
  containsSub text baseNameWithExt ||
  containsSub text ('/' :: baseNameNoExt) ||
  containsSub text ('.' :: baseNameNoExt) ||
  containsSub text (baseNameNoExt ++ ".".toList) ||
  containsSub text (baseNameNoExt ++ "/".toList)

/-- Language-dispatched match test of `scanFileForImports`. -/
def importMatches (languageId : Str) (imp : ImportMatch) (oldFileName : Str)
    (filePath oldPath : Str) : Bool :=
  if languageId == "python".toList then
    MultiLanguageScanner.doesPythonImportMatchFile imp.importPath oldFileName
  else if languageId == "go".toList then
    MultiLanguageScanner.doesGoImportMatchFile imp.importPath oldFileName
  else if languageId == "css".toList || languageId == "scss".toList ||
      languageId == "less".toList then
    MultiLanguageScanner.doesCSSImportMatchFile imp.importPath oldFileName
  else ImportScanner.doesImportMatchFile imp oldFileName filePath oldPath

/-- Resolver selection of `scanFileForImports`. -/
def pickResolver (rs : Resolvers) (languageId : Str) : ResolverM :=
  if languageId == "python".toList then rs.py
  else if languageId == "go".toList then rs.go
  else if languageId == "css".toList || languageId == "scss".toList ||
      languageId == "less".toList then rs.css
  else rs.js

/-- Scanner dispatch shared by the file and folder scans: the multi-language
scanner for its language family, the JS/TS scanner otherwise. -/
def scanDocumentOf (file : SrcFile) : List ImportMatch :=
  if isMultiLang file.languageId then
    MultiLanguageScanner.scanDocument file.languageId file.lines
  else ImportScanner.scanDocument file.lines

/-- File-rename scan of one candidate file (`RenameHandler.scanFileForImports`):
pre-filter on raw text, language-dispatched scan, per-import match test and
rewrite, and a span edit for every import whose rewritten path differs. -/
def scanFileForImports (file : SrcFile) (oldPath newPath oldFileName : Str)
    (rs : Resolvers) : Option FileEditM :=
  let text := fileText file
  let baseNameNoExt := posixBasenameExt oldPath (posixExtname oldPath)
  let baseNameWithExt := posixBasename oldPath
  if !hasReference text baseNameNoExt baseNameWithExt then none
  else
    let textEdits := (scanDocumentOf file).filterMap (fun imp =>
      if importMatches file.languageId imp oldFileName file.path oldPath then
        let resolver := pickResolver rs file.languageId
        let newImportPath := PathUtils.toImportPath file.path newPath
          (some imp.importPath) resolver (some file.languageId)
        if newImportPath ≠ imp.importPath then
          some ⟨imp.line, imp.startColumn, imp.endColumn, newImportPath⟩
        else none
      else none)
    if textEdits.isEmpty then none else some ⟨file.path, textEdits⟩

/-- File-rename driver (`RenameHandler.handleFileRename`): skip the renamed
file itself and files over the size ceiling, then collect the per-file scans.
-/
def handleFileRename (oldPath newPath : Str) (candidateFiles : List SrcFile)
    (maxFileSize : Nat) (rs : Resolvers) : List FileEditM :=
  let oldFileName := PathUtils.getFileNameWithoutExtension oldPath
  candidateFiles.filterMap (fun f =>
    if f.path == newPath then none
    else if maxFileSize < (fileText f).length then none
    else scanFileForImports f oldPath newPath oldFileName rs)

/-- Path rewrite of the folder-rename scan: a path containing the old
workspace-relative folder path has that segment's first occurrence replaced;
otherwise a path containing the old folder name has every word-bounded
occurrence replaced; otherwise it is unchanged. -/
def folderNewPath (oldRelativePath newRelativePath oldFolderName newFolderName
    p : Str) : Str :=
  if containsSub p oldRelativePath then
    replaceFirst p oldRelativePath newRelativePath
  else if containsSub p oldFolderName then
    replaceWordAll p oldFolderName newFolderName
  else p

/-- Per-import step of the folder-rename scan: Python relative imports are
skipped; a changed import yields a whole-line replacement with the formatter
output. -/
def folderEditFor (file : SrcFile)
    (oldRelativePath newRelativePath oldFolderName newFolderName : Str)
    (cfg : FormatterConfig) (imp : ImportMatch) : Option TextEditM :=
  if file.languageId == "python".toList && startsWithStr imp.importPath ".".toList then
    none
  else
    let newImportPath := folderNewPath oldRelativePath newRelativePath
      oldFolderName newFolderName imp.importPath
    if newImportPath ≠ imp.importPath then
      let lineText := file.lines.getD imp.line []
      some ⟨imp.line, 0, lineText.length,
        ImportFormatter.formatImportPath cfg lineText newImportPath⟩
    else none

/-- Folder-rename scan of one candidate file
(`RenameHandler.scanFileForFolderImports`). -/
def scanFileForFolderImports (file : SrcFile)
    (oldRelativePath newRelativePath oldFolderName newFolderName : Str)
    (cfg : FormatterConfig) : Option FileEditM :=
  let textEdits := (scanDocumentOf file).filterMap
    (folderEditFor file oldRelativePath newRelativePath oldFolderName
      newFolderName cfg)
  if textEdits.isEmpty then none else some ⟨file.path, textEdits⟩

end RenameHandler

namespace HistoryManager

/-- History-ledger push (`HistoryManager.addEntry`), generic in the entry
payload: when history is enabled, truncate everything after the cursor, append
the entry, advance the cursor, and on exceeding the configured maximum evict
the oldest entry (`Array.shift`) while decrementing the cursor.  The state is
the `(history, currentIndex)` pair, with the index an integer because the
empty ledger uses `-1`. -/
def addEntry {α : Type} (enabled : Bool) (maxEntries : Nat)
    (s : List α × Int) (e : α) : List α × Int :=
  if !enabled then s
  else
    let hist :=
      if s.2 < (s.1.length : Int) - 1 then s.1.take (s.2 + 1).toNat else s.1
    let hist2 := hist ++ [e]
    let idx := s.2 + 1
    if (maxEntries : Int) < (hist2.length : Int) then (hist2.drop 1, idx - 1)
    else (hist2, idx)

/-- Well-formedness invariant of the ledger state: the cursor is at least `-1`
and below the length, and the depth respects the configured maximum.  The
initial state `([], -1)` satisfies it, and `addEntry` preserves it. -/
def WF {α : Type} (maxEntries : Nat) (s : List α × Int) : Prop :=
  -1 ≤ s.2 ∧ s.2 < (s.1.length : Int) ∧ s.1.length ≤ maxEntries

end HistoryManager

namespace BatchProcessor

/-- Concurrency-limited batch runner (`BatchProcessor.processWithLimit`),
modelled over an explicit per-item outcome: a rejected item's error is caught
and contributes nothing, a resolved item's result is collected.  (The worker
pool only affects completion order, which the callers do not rely on; the
model processes items in list order.) -/
def processWithLimit {α β : Type} (processor : α → Except Str β)
    (items : List α) : List β :=
  items.filterMap (fun a =>
    match processor a with
    | .ok b => some b
    | .error _ => none)

end BatchProcessor

namespace RenameHandler

/-- Per-file processor of `handleFileRename` over fallible scans: the `catch`
around `scanFileForImports` converts a scan failure into a `null` result. -/
def fileProcessor {F : Type} (scan : F → Except Str (Option FileEditM))
    (f : F) : Except Str (Option FileEditM) :=
  match scan f with
  | .error _ => Except.ok none
  | .ok r => Except.ok r

/-- File-rename driver over fallible scans: run the guarded processor through
the batch runner and keep the non-null results. -/
def handleFileRenameExc {F : Type} (scan : F → Except Str (Option FileEditM))
    (files : List F) : List FileEditM :=
  (BatchProcessor.processWithLimit (fileProcessor scan) files).filterMap id

/-- Timeout message of `findAllEditsQuiet`. -/
def timeoutMsg : Str := "Linker: Operation timed out".toList

/-- Edit-computation entry point (`RenameHandler.findAllEditsQuiet`) with the
`TimeoutHandler.withTimeout` wrapper made explicit: when the operation
deadline expires the whole computation fails with the timeout error, which is
rethrown; otherwise the collected edits are returned. -/
def findAllEditsQuiet {F : Type} (timedOut : Bool)
    (scan : F → Except Str (Option FileEditM)) (files : List F) :
    Except Str (List FileEditM) :=
  if timedOut then .error timeoutMsg
  else .ok (handleFileRenameExc scan files)

end RenameHandler

/-!  Concrete workspaces used to settle the scenario claims. -/

/-- The `app.ts` line `import { hello } from './utils';` of the C1 scenario. -/
def c1AppLine : Str :=
  "import ".toList ++ [lb] ++ " hello ".toList ++ [rb] ++ " from ".toList ++
    [sq] ++ "./utils".toList ++ [sq] ++ ";".toList

/-- The importing file `app.ts` of the C1 scenario. -/
def c1AppFile : SrcFile :=
  ⟨"/ws/app.ts".toList, "typescript".toList, [c1AppLine]⟩

/-- The renamed file (now `helpers.ts`) of the C1 scenario. -/
def c1HelpersFile : SrcFile :=
  ⟨"/ws/helpers.ts".toList, "typescript".toList,
    ["export const hello = () => 0".toList]⟩

/-- Candidate set after the rename: `utils.ts` is gone, `helpers.ts` exists. -/
def c1Candidates : List SrcFile := [c1AppFile, c1HelpersFile]

/-- Output of the C1 rename computation. -/
def c1Result : List FileEditM :=
  RenameHandler.handleFileRename "/ws/utils.ts".toList "/ws/helpers.ts".toList
    c1Candidates 1048576 {}

/-- The sibling file `pkg/a/x.py` containing `from . import helpers` of the C2
scenario. -/
def c2SiblingFile : SrcFile :=
  ⟨"/ws/pkg/a/x.py".toList, "python".toList, ["from . import helpers".toList]⟩

/-- Output of the C2 scan of the sibling file for the rename
`pkg/a/helpers.py` to `pkg/b/helpers.py`. -/
def c2Result : Option FileEditM :=
  RenameHandler.scanFileForImports c2SiblingFile "/ws/pkg/a/helpers.py".toList
    "/ws/pkg/b/helpers.py".toList
    (PathUtils.getFileNameWithoutExtension "/ws/pkg/a/helpers.py".toList) {}

/-- Go source file of the C4 scenario, importing both the renamed directory
and a sibling directory. -/
def c4GoFile : SrcFile :=
  ⟨"/ws/cmd/main.go".toList, "go".toList,
    ["package main".toList,
     "import ".toList ++ [dq] ++ "modpath/internal/utils".toList ++ [dq],
     "import ".toList ++ [dq] ++ "modpath/internal/other".toList ++ [dq]]⟩

/-- Workspace-relative old folder path of the C4/C5 directory rename, computed
the way `scanFileForFolderImports` derives it from the URIs. -/
def c4OldRel : Str :=
  replaceFirst (PathUtils.normalizePath "/ws/internal/utils".toList)
    ("/ws".toList ++ "/".toList) []

/-- Workspace-relative new folder path of the C4/C5 directory rename. -/
def c4NewRel : Str :=
  replaceFirst (PathUtils.normalizePath "/ws/internal/common/utils".toList)
    ("/ws".toList ++ "/".toList) []

/-- Output of the C4 folder-rename scan. -/
def c4Result : Option FileEditM :=
  RenameHandler.scanFileForFolderImports c4GoFile c4OldRel c4NewRel
    (posixBasename "/ws/internal/utils".toList)
    (posixBasename "/ws/internal/common/utils".toList) ⟨.auto, .auto⟩

/-- Go file with two block-import paths on one source line, for the C5
overlap counterexample. -/
def c5GoFile : SrcFile :=
  ⟨"/ws/cmd/two.go".toList, "go".toList,
    ["import (".toList,
     [dq] ++ "modpath/internal/utils".toList ++ [dq] ++ " ".toList ++
       [dq] ++ "modpath2/internal/utils".toList ++ [dq],
     ")".toList]⟩

/-- Output of the C5 folder-rename scan. -/
def c5Result : Option FileEditM :=
  RenameHandler.scanFileForFolderImports c5GoFile c4OldRel c4NewRel
    (posixBasename "/ws/internal/utils".toList)
    (posixBasename "/ws/internal/common/utils".toList) ⟨.auto, .auto⟩

/-- Python line `from  utils import x` (two spaces) of the C6 counterexample.
-/
def c6PyLine : Str := "from  utils import x".toList

/-- JS import statement without a trailing semicolon, for the C7 scenario. -/
def c7NoSemiLine : Str :=
  "import ".toList ++ [lb] ++ " x ".toList ++ [rb] ++ " from ".toList ++
    [sq] ++ "./a".toList ++ [sq]

/-- The same statement with a trailing semicolon. -/
def c7SemiLine : Str := c7NoSemiLine ++ ";".toList

/-- The rewritten `app.ts` line expected in the C1 scenario. -/
def c1NewLine : Str :=
  "import ".toList ++ [lb] ++ " hello ".toList ++ [rb] ++ " from ".toList ++
    [sq] ++ "./helpers".toList ++ [sq] ++ ";".toList

/-- The rewritten Go import line expected in the C4 scenario. -/
def c4NewLine : Str :=
  "import ".toList ++ [dq] ++ "modpath/internal/common/utils".toList ++ [dq]

/-- Replacement text of the first overlapping C5 edit (the formatter fallback
rewrites the first quoted string of the whole line). -/
def c5New1 : Str :=
  [dq] ++ "modpath/internal/common/utils".toList ++ [dq] ++ " ".toList ++
    [dq] ++ "modpath2/internal/utils".toList ++ [dq]

/-- Replacement text of the second overlapping C5 edit. -/
def c5New2 : Str :=
  [dq] ++ "modpath2/internal/common/utils".toList ++ [dq] ++ " ".toList ++
    [dq] ++ "modpath2/internal/utils".toList ++ [dq]

/-- The FileEdit produced by the C5 folder scan: two whole-line edits with
identical ranges. -/
def c5FE : FileEditM :=
  ⟨"/ws/cmd/two.go".toList, [⟨1, 0, 50, c5New1⟩, ⟨1, 0, 50, c5New2⟩]⟩

/-- Formatter output on the no-semicolon statement: the path changes, no
semicolon appears. -/
def c7NewNoSemi : Str :=
  "import ".toList ++ [lb] ++ " x ".toList ++ [rb] ++ " from ".toList ++
    [sq] ++ "./b".toList ++ [sq]

/-- Formatter output on the semicolon statement: the semicolon is kept even
under the `never` configuration. -/
def c7NewSemi : Str := c7NewNoSemi ++ ";".toList

/-- The source line a reported match points into. -/
def lineOf (lines : List Str) (m : ImportMatch) : Str := lines.getD m.line []

/-- Span property of a reported match: the text of its line on
`[startColumn, endColumn)` is exactly the captured path (so in particular the
surrounding quotes are excluded). -/
def spanOk (lines : List Str) (m : ImportMatch) : Prop :=
  sub (lineOf lines m) m.startColumn m.endColumn = m.importPath

/-!  Substring lemmas underlying the span properties. -/

theorem sub_length (l : Str) (i m : Nat) :
    (sub l i m).length = min (m - i) (l.length - i) := by
  simp [sub]

theorem findSub_spec {h n : Str} {i : Nat} (hf : findSub h n = some i) :
    sub h i (i + n.length) = n ∧ i + n.length ≤ h.length := by
  have hp := List.find?_some hf
  have hm := List.mem_of_find?_eq_some hf
  have hi : i < h.length + 1 := List.mem_range.mp hm
  have he : sub h i (i + n.length) = n := by
    simpa using hp
  refine ⟨he, ?_⟩
  have hlen : (sub h i (i + n.length)).length = n.length := by rw [he]
  rw [sub_length] at hlen
  have hc : i + n.length - i = n.length := by omega
  rw [hc] at hlen
  rcases Nat.le_total n.length (h.length - i) with hle | hge
  · omega
  · rw [Nat.min_eq_right hge] at hlen
    omega

theorem sub_sub (l : Str) (i m a b : Nat) (hb : b ≤ (sub l i m).length) :
    sub (sub l i m) a b = sub l (i + a) (i + b) := by
  rw [sub_length] at hb
  have hb1 : b ≤ m - i := le_trans hb (Nat.min_le_left _ _)
  simp only [sub]
  rw [List.drop_take, List.drop_drop, List.take_take]
  congr 1
  rw [Nat.min_eq_left (by omega)]
  omega

theorem sub_append3 (pre p suf : Str) :
    sub (pre ++ p ++ suf) pre.length (pre.length + p.length) = p := by
  simp only [sub, Nat.add_sub_cancel_left]
  rw [List.append_assoc, List.drop_left, List.take_left]

/-- Master span lemma for every scanner that recovers the path start column by
searching the full matched slice for a needle containing the captured path at
a known quote offset. -/
theorem span_master {line : Str} {i e qi : Nat} {needle pre p suf : Str}
    (hneedle : needle = pre ++ p ++ suf)
    (hfind : findSub (sub line i e) needle = some qi) :
    sub line (i + qi + pre.length) (i + qi + pre.length + p.length) = p := by
  obtain ⟨h1, h2⟩ := findSub_spec hfind
  have hnl : needle.length = pre.length + p.length + suf.length := by
    subst hneedle; simp only [List.length_append]
  have hlen : (sub (sub line i e) qi (qi + needle.length)).length = needle.length := by
    rw [h1]
  have h3 : sub (sub (sub line i e) qi (qi + needle.length)) pre.length
      (pre.length + p.length) = p := by
    rw [h1, hneedle]; exact sub_append3 pre p suf
  rw [sub_sub (sub line i e) qi (qi + needle.length) pre.length
    (pre.length + p.length) (by rw [hlen]; omega)] at h3
  have h4 : sub (sub line i e) (qi + pre.length) (qi + (pre.length + p.length)) = p := h3
  have h5 := sub_sub line i e (qi + pre.length) (qi + (pre.length + p.length))
    (by omega)
  rw [h5] at h4
  have : i + (qi + pre.length) = i + qi + pre.length := by omega
  rw [this] at h4
  have : i + (qi + (pre.length + p.length)) = i + qi + pre.length + p.length := by omega
  rw [this] at h4
  exact h4

/-!  Structural lemmas about the execution loops. -/

theorem execAllFrom_mem {try_ : Nat → Option PatRes} {ir : Nat × PatRes} :
    ∀ {pos fuel : Nat}, ir ∈ execAllFrom try_ pos fuel → try_ ir.1 = some ir.2 := by
  intro pos fuel
  induction fuel generalizing pos with
  | zero => intro h; simp [execAllFrom] at h
  | succ n ih =>
    intro h
    unfold execAllFrom at h
    cases htry : try_ pos with
    | some r =>
      rw [htry] at h
      rcases List.mem_cons.mp h with heq | h2
      · subst heq; exact htry
      · exact ih h2
    | none =>
      rw [htry] at h
      exact ih h

theorem scanLinesWith_mem {f : Str → Nat → List ImportMatch} {m : ImportMatch} :
    ∀ {lines : List Str} {start : Nat}, m ∈ scanLinesWith f lines start →
      ∃ j l, lines[j]? = some l ∧ m ∈ f l (start + j) := by
  intro lines
  induction lines with
  | nil => intro start h; simp [scanLinesWith] at h
  | cons l ls ih =>
    intro start h
    unfold scanLinesWith at h
    rcases List.mem_append.mp h with h1 | h2
    · exact ⟨0, l, by simp, by simpa using h1⟩
    · obtain ⟨j, l', hg, hm⟩ := ih h2
      refine ⟨j + 1, l', by simpa using hg, ?_⟩
      have hst : start + (j + 1) = start + 1 + j := by omega
      rw [hst]
      exact hm

theorem takeWhile_eq_take_len {α : Type} (f : α → Bool) :
    ∀ (l : List α), l.takeWhile f = l.take (l.takeWhile f).length := by
  intro l
  induction l with
  | nil => rfl
  | cons x xs ih =>
    cases hx : f x
    · rw [List.takeWhile_cons, if_neg (by simp [hx])]
      rfl
    · rw [List.takeWhile_cons, if_pos hx]
      simp only [List.length_cons, List.take_succ_cons]
      exact congrArg (x :: ·) ih

theorem takeWhile_get {α : Type} (f : α → Bool) :
    ∀ (l : List α) (t : Nat) (c : α), (l.takeWhile f)[t]? = some c →
      l[t]? = some c ∧ f c = true := by
  intro l
  induction l with
  | nil => intro t c h; simp [List.takeWhile] at h
  | cons x xs ih =>
    intro t c h
    cases hx : f x
    · rw [List.takeWhile_cons, if_neg (by simp [hx])] at h
      simp at h
    · rw [List.takeWhile_cons, if_pos hx] at h
      cases t with
      | zero =>
        simp only [List.getElem?_cons_zero, Option.some.injEq] at h
        subst h
        exact ⟨by simp, hx⟩
      | succ t' =>
        simp only [List.getElem?_cons_succ] at h ⊢
        exact ih t' c h

/-!  Span properties of the individual scanners. -/

theorem emitJs_span {line : Str} {idx : Nat} {ir : Nat × PatRes} {m : ImportMatch}
    (h : ImportScanner.emitJs line idx ir = some m) :
    sub line m.startColumn m.endColumn = m.importPath ∧ m.line = idx := by
  simp only [ImportScanner.emitJs] at h
  split at h
  case _ qi heq =>
    injection h with h
    subst h
    exact ⟨span_master rfl heq, rfl⟩
  case _ => exact absurd h (by simp)

theorem filterMap_emitJs_span {line : Str} {idx : Nat} {L : List (Nat × PatRes)}
    {m : ImportMatch} (h : m ∈ L.filterMap (ImportScanner.emitJs line idx)) :
    sub line m.startColumn m.endColumn = m.importPath ∧ m.line = idx := by
  obtain ⟨ir, _, hemit⟩ := List.mem_filterMap.mp h
  exact emitJs_span hemit

theorem scanLineJs_span {line : Str} {idx : Nat} {m : ImportMatch}
    (h : m ∈ ImportScanner.scanLineJs line idx) :
    sub line m.startColumn m.endColumn = m.importPath ∧ m.line = idx := by
  unfold ImportScanner.scanLineJs at h
  split at h
  · simp at h
  · rcases List.mem_append.mp h with h1 | h4
    · rcases List.mem_append.mp h1 with h2 | h3
      · rcases List.mem_append.mp h2 with ha | hb
        · exact filterMap_emitJs_span ha
        · exact filterMap_emitJs_span hb
      · exact filterMap_emitJs_span h3
    · exact filterMap_emitJs_span h4

/-- Helper relating `getD` to an indexed lookup on the document lines. -/
theorem getD_of_getElem? {lines : List Str} {j : Nat} {l : Str}
    (hg : lines[j]? = some l) : lines.getD j [] = l := by
  simp [List.getD, hg]

theorem scanDocumentJs_span {lines : List Str} {m : ImportMatch}
    (h : m ∈ ImportScanner.scanDocument lines) : spanOk lines m := by
  obtain ⟨j, l, hg, hm⟩ := scanLinesWith_mem h
  obtain ⟨hspan, hline⟩ := scanLineJs_span hm
  unfold spanOk lineOf
  rw [hline, Nat.zero_add, getD_of_getElem? hg]
  exact hspan

theorem emitJava_span {line : Str} {idx : Nat} {ir : Nat × PatRes} {m : ImportMatch}
    (h : MultiLanguageScanner.emitJava line idx ir = some m) :
    sub line m.startColumn m.endColumn = m.importPath ∧ m.line = idx := by
  simp only [MultiLanguageScanner.emitJava] at h
  split at h
  case _ qi heq =>
    injection h with h
    subst h
    refine ⟨?_, rfl⟩
    have hs := span_master (by simp : ir.2.path = [] ++ ir.2.path ++ []) heq
    simpa using hs
  case _ => exact absurd h (by simp)

theorem scanLineJava_span {line : Str} {idx : Nat} {m : ImportMatch}
    (h : m ∈ MultiLanguageScanner.scanLineJava line idx) :
    sub line m.startColumn m.endColumn = m.importPath ∧ m.line = idx := by
  unfold MultiLanguageScanner.scanLineJava at h
  split at h
  · simp at h
  · obtain ⟨ir, _, hemit⟩ := List.mem_filterMap.mp h
    exact emitJava_span hemit

theorem scanJava_span {lines : List Str} {m : ImportMatch}
    (h : m ∈ MultiLanguageScanner.scanJava lines) : spanOk lines m := by
  obtain ⟨j, l, hg, hm⟩ := scanLinesWith_mem h
  obtain ⟨hspan, hline⟩ := scanLineJava_span hm
  unfold spanOk lineOf
  rw [hline, Nat.zero_add, getD_of_getElem? hg]
  exact hspan

theorem emitGoSingle_span {line : Str} {idx : Nat} {ir : Nat × PatRes} {m : ImportMatch}
    (h : MultiLanguageScanner.emitGoSingle line idx ir = some m) :
    sub line m.startColumn m.endColumn = m.importPath ∧ m.line = idx := by
  simp only [MultiLanguageScanner.emitGoSingle] at h
  split at h
  case _ qi heq =>
    injection h with h
    subst h
    exact ⟨span_master (by simp : ir.2.quote ++ ir.2.path =
      ir.2.quote ++ ir.2.path ++ []) heq, rfl⟩
  case _ => exact absurd h (by simp)

/-- Spans that are literal slices: taking again at the slice start with the
slice's own length returns the slice. -/
theorem sub_self_span (l : Str) (a k : Nat) :
    sub l a (a + (sub l a k).length) = sub l a k := by
  simp only [sub]
  have hc : a + ((l.drop a).take (k - a)).length - a = ((l.drop a).take (k - a)).length := by
    omega
  rw [hc]
  rw [List.take_eq_take]
  simp [Nat.min_assoc]

theorem emitGoBlock_span {line : Str} {idx : Nat} {ir : Nat × PatRes} {m : ImportMatch}
    (htry : MultiLanguageScanner.tryGoBlock line ir.1 = some ir.2)
    (hm : m = MultiLanguageScanner.emitGoBlock idx ir) :
    sub line m.startColumn m.endColumn = m.importPath ∧ m.line = idx := by
  obtain ⟨i, r⟩ := ir
  simp only [MultiLanguageScanner.tryGoBlock] at htry
  split at htry
  case _ q hq =>
    split at htry
    · split at htry
      case _ k0 hk =>
        injection htry with htry
        subst hm
        subst htry
        simp only [MultiLanguageScanner.emitGoBlock]
        refine ⟨?_, trivial⟩
        simp only [List.length_cons, List.length_nil]
        have hv := sub_self_span line (i + 1) (i + 1 + k0)
        simpa [Nat.add_assoc] using hv
      case _ => exact absurd htry (by simp)
    · exact absurd htry (by simp)
  case _ => exact absurd htry (by simp)

theorem emitCssUrl_span {line : Str} {idx : Nat} {ir : Nat × PatRes} {m : ImportMatch}
    (h : MultiLanguageScanner.emitCssUrl line idx ir = some m) :
    sub line m.startColumn m.endColumn = m.importPath ∧ m.line = idx := by
  simp only [MultiLanguageScanner.emitCssUrl] at h
  split at h
  case _ qi heq =>
    injection h with h
    subst h
    refine ⟨?_, rfl⟩
    by_cases hq : ir.2.quote.isEmpty
    · rw [if_pos hq] at heq
      have hqe : ir.2.quote = [] := List.isEmpty_iff.mp hq
      have hs := span_master (by simp [hqe] : ir.2.path =
        ir.2.quote ++ ir.2.path ++ []) heq
      simpa using hs
    · rw [if_neg hq] at heq
      exact span_master rfl heq
  case _ => exact absurd h (by simp)

theorem emitCssDirect_span {line : Str} {idx : Nat} {ir : Nat × PatRes} {m : ImportMatch}
    (h : MultiLanguageScanner.emitCssDirect line idx ir = some m) :
    sub line m.startColumn m.endColumn = m.importPath ∧ m.line = idx := by
  simp only [MultiLanguageScanner.emitCssDirect] at h
  split at h
  case _ qi heq =>
    injection h with h
    subst h
    exact ⟨span_master (by simp : ir.2.quote ++ ir.2.path =
      ir.2.quote ++ ir.2.path ++ []) heq, rfl⟩
  case _ => exact absurd h (by simp)

theorem scanLineCSS_span {line : Str} {idx : Nat} {m : ImportMatch}
    (h : m ∈ MultiLanguageScanner.scanLineCSS line idx) :
    sub line m.startColumn m.endColumn = m.importPath ∧ m.line = idx := by
  unfold MultiLanguageScanner.scanLineCSS at h
  split at h
  · simp at h
  · rcases List.mem_append.mp h with h1 | h2
    · unfold MultiLanguageScanner.cssUrlMatches at h1
      obtain ⟨ir, _, hemit⟩ := List.mem_filterMap.mp h1
      exact emitCssUrl_span hemit
    · unfold MultiLanguageScanner.cssDirectMatches at h2
      obtain ⟨ir, _, hemit⟩ := List.mem_filterMap.mp h2
      exact emitCssDirect_span hemit

theorem scanCSS_span {lines : List Str} {m : ImportMatch}
    (h : m ∈ MultiLanguageScanner.scanCSS lines) : spanOk lines m := by
  obtain ⟨j, l, hg, hm⟩ := scanLinesWith_mem h
  obtain ⟨hspan, hline⟩ := scanLineCSS_span hm
  unfold spanOk lineOf
  rw [hline, Nat.zero_add, getD_of_getElem? hg]
  exact hspan

theorem goLineMatches_span {line : Str} {idx : Nat} {m : ImportMatch}
    (h : m ∈ MultiLanguageScanner.goSingleMatches line idx ∨
      m ∈ MultiLanguageScanner.goBlockMatches line idx) :
    sub line m.startColumn m.endColumn = m.importPath ∧ m.line = idx := by
  rcases h with h1 | h2
  · unfold MultiLanguageScanner.goSingleMatches at h1
    obtain ⟨ir, _, hemit⟩ := List.mem_filterMap.mp h1
    exact emitGoSingle_span hemit
  · unfold MultiLanguageScanner.goBlockMatches at h2
    obtain ⟨ir, hin, hemit⟩ := List.mem_map.mp h2
    exact emitGoBlock_span (execAllFrom_mem hin) hemit.symm

theorem scanGoLines_span {m : ImportMatch} :
    ∀ {lines : List Str} {i : Nat} {inB : Bool},
      m ∈ MultiLanguageScanner.scanGoLines lines i inB →
      ∃ j l, lines[j]? = some l ∧
        sub l m.startColumn m.endColumn = m.importPath ∧ m.line = i + j := by
  intro lines
  induction lines with
  | nil => intro i inB h; simp [MultiLanguageScanner.scanGoLines] at h
  | cons l ls ih =>
    intro i inB h
    unfold MultiLanguageScanner.scanGoLines at h
    split at h
    · obtain ⟨j, l', hg, hm⟩ := ih h
      exact ⟨j + 1, l', by simpa using hg, hm.1, by have hx := hm.2; omega⟩
    · split at h
      · obtain ⟨j, l', hg, hm⟩ := ih h
        exact ⟨j + 1, l', by simpa using hg, hm.1, by have hx := hm.2; omega⟩
      · split at h
        · obtain ⟨j, l', hg, hm⟩ := ih h
          exact ⟨j + 1, l', by simpa using hg, hm.1, by have hx := hm.2; omega⟩
        · rcases List.mem_append.mp h with h12 | h3
          · rcases List.mem_append.mp h12 with h1 | h2
            · obtain ⟨hspan, hline⟩ := goLineMatches_span (Or.inl h1)
              exact ⟨0, l, by simp, hspan, by have hx := hline; omega⟩
            · split at h2
              · obtain ⟨hspan, hline⟩ := goLineMatches_span (Or.inr h2)
                exact ⟨0, l, by simp, hspan, by have hx := hline; omega⟩
              · simp at h2
          · obtain ⟨j, l', hg, hm⟩ := ih h3
            exact ⟨j + 1, l', by simpa using hg, hm.1, by have hx := hm.2; omega⟩

theorem scanGo_span {lines : List Str} {m : ImportMatch}
    (h : m ∈ MultiLanguageScanner.scanGo lines) : spanOk lines m := by
  obtain ⟨j, l, hg, hspan, hline⟩ := scanGoLines_span h
  unfold spanOk lineOf
  rw [hline, Nat.zero_add, getD_of_getElem? hg]
  exact hspan

theorem runOf_get {f : Char → Bool} {l : Str} {i t : Nat} {c : Char}
    (h : (runOf f l i)[t]? = some c) : l[i + t]? = some c ∧ f c = true := by
  unfold runOf at h
  obtain ⟨h1, h2⟩ := takeWhile_get f (l.drop i) t c h
  rw [List.getElem?_drop] at h1
  exact ⟨h1, h2⟩

theorem runOf_slice (f : Char → Bool) (l : Str) (i : Nat) :
    runOf f l i = sub l i (i + (runOf f l i).length) := by
  unfold runOf sub
  have hc : i + ((l.drop i).takeWhile f).length - i = ((l.drop i).takeWhile f).length := by
    omega
  rw [hc]
  exact takeWhile_eq_take_len f (l.drop i)

/-- A whitespace run of length at least two puts a whitespace character at
offset one past its start; this pins the run length to one when the reported
start column holds a non-whitespace character. -/
theorem wsRun_eq_one {ln : Str} {a : Nat} {c : Char}
    (hw : wsRun ln a ≠ 0) (hc : ln[a + 1]? = some c) (hnw : isWs c = false) :
    wsRun ln a = 1 := by
  by_contra hne
  have h2 : 2 ≤ wsRun ln a := by omega
  unfold wsRun at h2
  have hlt : 1 < (runOf isWs ln a).length := by omega
  obtain ⟨h1, hws⟩ := runOf_get (List.getElem?_eq_getElem hlt)
  rw [hc] at h1
  injection h1 with h1
  rw [← h1] at hws
  rw [hws] at hnw
  simp at hnw

theorem pyFrom_span {ln : Str} {i : Nat} {r : PatRes} {c : Char}
    (htry : MultiLanguageScanner.tryPyFrom ln i = some r)
    (hc : ln[i + 5]? = some c) (hnw : isWs c = false) :
    sub ln (i + 5) (i + 5 + r.path.length) = r.path := by
  simp only [MultiLanguageScanner.tryPyFrom] at htry
  split at htry
  · split at htry
    · exact absurd htry (by simp)
    · split at htry
      · exact absurd htry (by simp)
      · split at htry
        · exact absurd htry (by simp)
        · split at htry
          · injection htry with htry
            case _ hw _ _ _ =>
              have hw1 : wsRun ln (i + 4) = 1 := by
                apply wsRun_eq_one hw _ hnw
                have hx : i + 4 + 1 = i + 5 := by omega
                rw [hx]
                exact hc
              rw [← htry]
              simp only
              rw [hw1]
              have hx : i + 4 + 1 = i + 5 := by omega
              rw [hx]
              exact (runOf_slice pyPathChar ln (i + 5)).symm
          · exact absurd htry (by simp)
  · exact absurd htry (by simp)

theorem pyImport_span {ln : Str} {r : PatRes} {c : Char}
    (htry : MultiLanguageScanner.tryPyImport ln = some r)
    (hc : ln[7]? = some c) (hnw : isWs c = false) :
    sub ln 7 (7 + r.path.length) = r.path := by
  simp only [MultiLanguageScanner.tryPyImport] at htry
  split at htry
  · split at htry
    · exact absurd htry (by simp)
    · split at htry
      · exact absurd htry (by simp)
      · injection htry with htry
        case _ hw _ =>
          have hw1 : wsRun ln 6 = 1 := by
            apply wsRun_eq_one hw _ hnw
            exact hc
          rw [← htry]
          simp only
          rw [hw1]
          exact (runOf_slice pyPathChar ln 7).symm
  · exact absurd htry (by simp)

theorem scanLinePython_line {line : Str} {idx : Nat} {m : ImportMatch}
    (h : m ∈ MultiLanguageScanner.scanLinePython line idx) : m.line = idx := by
  unfold MultiLanguageScanner.scanLinePython at h
  split at h
  · simp at h
  · rcases List.mem_append.mp h with h1 | h2
    · obtain ⟨ir, _, hm⟩ := List.mem_map.mp h1
      rw [← hm]
      rfl
    · split at h2
      · rcases List.mem_singleton.mp h2 with rfl
        rfl
      · simp at h2

theorem scanLinePython_span {ln : Str} {idx : Nat} {m : ImportMatch} {c : Char}
    (h : m ∈ MultiLanguageScanner.scanLinePython ln idx)
    (hc : ln[m.startColumn]? = some c) (hnw : isWs c = false) :
    sub ln m.startColumn m.endColumn = m.importPath := by
  unfold MultiLanguageScanner.scanLinePython at h
  split at h
  · simp at h
  · rcases List.mem_append.mp h with h1 | h2
    · obtain ⟨ir, hin, hm⟩ := List.mem_map.mp h1
      have htry := execAllFrom_mem hin
      subst hm
      simp only [MultiLanguageScanner.emitPyFrom] at hc ⊢
      exact pyFrom_span htry hc hnw
    · split at h2
      case _ r htry =>
        rcases List.mem_singleton.mp h2 with rfl
        simp only [MultiLanguageScanner.emitPyImport] at hc ⊢
        exact pyImport_span htry hc hnw
      case _ => simp at h2

theorem scanPython_span {lines : List Str} {m : ImportMatch} {c : Char}
    (h : m ∈ MultiLanguageScanner.scanPython lines)
    (hc : (lineOf lines m)[m.startColumn]? = some c) (hnw : isWs c = false) :
    spanOk lines m := by
  obtain ⟨j, l, hg, hm⟩ := scanLinesWith_mem h
  have hline := scanLinePython_line hm
  have hl : lineOf lines m = l := by
    unfold lineOf
    rw [hline, Nat.zero_add, getD_of_getElem? hg]
  rw [hl] at hc
  unfold spanOk
  rw [hl]
  exact scanLinePython_span hm hc hnw

/-- C6 (amended): for every import statement returned by the JS/TS, Java, Go
and CSS scanners, the reported `[startColumn, endColumn)` span excludes the
surrounding quote characters — the substring of the line at that span equals
exactly the captured path text.  The Python scanner hardcodes the span start
as match start plus keyword-plus-one-space, so its span has this property
exactly when a single space separates the keyword from the path, equivalently
when the character at the reported start column is not whitespace. -/
theorem c6_scanner_spans_match_path :
    (∀ (lines : List Str) (m : ImportMatch),
      m ∈ ImportScanner.scanDocument lines → spanOk lines m) ∧
    (∀ (lines : List Str) (m : ImportMatch),
      m ∈ MultiLanguageScanner.scanJava lines → spanOk lines m) ∧
    (∀ (lines : List Str) (m : ImportMatch),
      m ∈ MultiLanguageScanner.scanGo lines → spanOk lines m) ∧
    (∀ (lines : List Str) (m : ImportMatch),
      m ∈ MultiLanguageScanner.scanCSS lines → spanOk lines m) ∧
    (∀ (lines : List Str) (m : ImportMatch) (c : Char),
      m ∈ MultiLanguageScanner.scanPython lines →
      (lineOf lines m)[m.startColumn]? = some c → isWs c = false →
      spanOk lines m) :=
  ⟨fun _ _ h => scanDocumentJs_span h,
   fun _ _ h => scanJava_span h,
   fun _ _ h => scanGo_span h,
   fun _ _ h => scanCSS_span h,
   fun _ _ _ h hc hnw => scanPython_span h hc hnw⟩

/-- C6 counterexample: on `from  utils import x` (two spaces after `from`) the
Python scanner reports the span `[5, 10)`, whose line text is `" util"`, not
the captured path `utils` — so the claim fails as stated for arbitrary
internal whitespace. -/
theorem c6_counterexample :
    MultiLanguageScanner.scanPython [c6PyLine] =
      [⟨"utils".toList, 0, 5, 10, .imp, []⟩] ∧
    sub c6PyLine 5 10 = " util".toList ∧
    sub c6PyLine 5 10 ≠ "utils".toList := by
  refine ⟨by decide, by decide, by decide⟩

/-- C6 witness: the span property evaluated on concrete JS and Python lines
through the span theorem. -/
theorem c6_witness :
    spanOk [c1AppLine] ⟨"./utils".toList, 0, 23, 30, .imp, [sq]⟩ ∧
    spanOk ["from utils import x".toList]
      ⟨"utils".toList, 0, 5, 10, .imp, []⟩ := by
  constructor
  · exact c6_scanner_spans_match_path.1 [c1AppLine] _ (by decide)
  · exact c6_scanner_spans_match_path.2.2.2.2 ["from utils import x".toList] _ 'u'
      (by decide) (by decide) (by decide)

/-- C1: in a workspace where `app.ts` contains
`import { hello } from './utils';`, renaming `utils.ts` to `helpers.ts`
produces exactly one FileEdit, for `app.ts`, whose single text edit replaces
the path-token span `[23, 30)` of that import with `./helpers`, and applying
it yields the line `import { hello } from './helpers';`.  (The candidate set
is enumerated after the rename, so it holds `app.ts` and `helpers.ts`.) -/
theorem c1_concrete_rename_scenario :
    c1Result =
      [⟨"/ws/app.ts".toList, [⟨0, 23, 30, "./helpers".toList⟩]⟩] ∧
    sub c1AppLine 23 30 = "./utils".toList ∧
    applyEditToLine c1AppLine ⟨0, 23, 30, "./helpers".toList⟩ = c1NewLine := by
  refine ⟨by decide, by decide, by decide⟩

/-- C2 (code bug): for the rename `pkg/a/helpers.py` to `pkg/b/helpers.py`,
the statement `from . import helpers` in `pkg/a/x.py` is scanned with
captured path `"."`, whose terminal dotted segment is empty and therefore
never equals `helpers`; the classifier rejects it and the whole scan of the
file yields no edit, although the scanner's own documentation and the
specification list `from . import x` as a supported, rewritten form. -/
theorem c2_from_dot_import_not_matched :
    MultiLanguageScanner.scanPython c2SiblingFile.lines =
      [⟨".".toList, 0, 5, 6, .imp, []⟩] ∧
    MultiLanguageScanner.doesPythonImportMatchFile ".".toList
      "helpers.py".toList = false ∧
    c2Result = none := by
  refine ⟨by decide, by decide, by decide⟩

/-- Helper: a two-character prefix ending in a slash forces a slash in the
string. -/
theorem startsWith_two_slash {p : Str} {a : Char}
    (h : startsWithStr p [a, '/'] = true) : p.any (· = '/') = true := by
  cases p with
  | nil => simp [startsWithStr, litAt, sub] at h
  | cons x xs =>
    cases xs with
    | nil => simp [startsWithStr, litAt, sub] at h
    | cons y ys =>
      simp [startsWithStr, litAt, sub] at h
      simp [h.2]

/-- C3: a JS/TS import path with no leading `.` or `/` and no slash anywhere
(a bare package identifier such as `react`) is classified as an external
package by `doesImportMatchFile` and never matches any rename; the classifier
consults no alias map (it takes none). -/
theorem c3_bare_package_never_matches (m : ImportMatch)
    (oldFileName currentFilePath oldFilePath : Str)
    (h1 : startsWithStr m.importPath ".".toList = false)
    (h2 : startsWithStr m.importPath "/".toList = false)
    (h3 : m.importPath.any (· = '/') = false) :
    ImportScanner.doesImportMatchFile m oldFileName currentFilePath
      oldFilePath = false := by
  have h4 : startsWithStr m.importPath "@/".toList = false := by
    cases hx : startsWithStr m.importPath "@/".toList
    · rfl
    · have hy := startsWith_two_slash (p := m.importPath) (a := '@') hx
      rw [h3] at hy
      simp at hy
  have h5 : startsWithStr m.importPath "~/".toList = false := by
    cases hx : startsWithStr m.importPath "~/".toList
    · rfl
    · have hy := startsWith_two_slash (p := m.importPath) (a := '~') hx
      rw [h3] at hy
      simp at hy
  simp only [ImportScanner.doesImportMatchFile, h1, h2, h3, h4, h5]
  simp

/-- C3 witness: the bare package import `react` matches no rename request. -/
theorem c3_witness :
    ImportScanner.doesImportMatchFile
      ⟨"react".toList, 0, 20, 25, .imp, [sq]⟩ "utils".toList
      "/ws/app.ts".toList "/ws/utils.ts".toList = false :=
  c3_bare_package_never_matches _ _ _ _ (by decide) (by decide) (by decide)

/-- C4: for the directory rename `internal/utils` to `internal/common/utils`
(workspace-relative paths as the folder scan derives them), the Go statement
`import "modpath/internal/utils"` is rewritten to
`import "modpath/internal/common/utils"`, and the statement
`import "modpath/internal/other"` receives no edit: the FileEdit holds
exactly one replacement, on the line of the first statement. -/
theorem c4_go_folder_rename_rewrite :
    c4OldRel = "internal/utils".toList ∧
    c4NewRel = "internal/common/utils".toList ∧
    c4Result = some ⟨"/ws/cmd/main.go".toList, [⟨1, 0, 31, c4NewLine⟩]⟩ := by
  refine ⟨by decide, by decide, by decide⟩

/-- C5 (amended): every text replacement produced by the folder-rename scan
spans the entire original line — column `0` to the original line length, in
coordinates of the original content — so two scanner matches on the same
source line produce edits with identical ranges, which overlap, rather than
disjoint spans. -/
theorem c5_folder_edits_whole_line (file : SrcFile)
    (oldRelativePath newRelativePath oldFolderName newFolderName : Str)
    (cfg : FormatterConfig) (fe : FileEditM)
    (hfe : RenameHandler.scanFileForFolderImports file oldRelativePath
      newRelativePath oldFolderName newFolderName cfg = some fe) :
    (∀ e ∈ fe.edits, e.startCol = 0 ∧
      e.endCol = (file.lines.getD e.line []).length) ∧
    (∀ e ∈ fe.edits, ∀ e' ∈ fe.edits, e.line = e'.line →
      e.startCol = e'.startCol ∧ e.endCol = e'.endCol) := by
  have hstep : ∀ (imp : ImportMatch) (e : TextEditM),
      RenameHandler.folderEditFor file oldRelativePath newRelativePath
        oldFolderName newFolderName cfg imp = some e →
      e.startCol = 0 ∧ e.endCol = (file.lines.getD e.line []).length := by
    intro imp e hmk
    unfold RenameHandler.folderEditFor at hmk
    split at hmk
    · exact absurd hmk (by simp)
    · dsimp only at hmk
      split at hmk
      · injection hmk with hmk
        rw [← hmk]
        exact ⟨rfl, rfl⟩
      · exact absurd hmk (by simp)
  unfold RenameHandler.scanFileForFolderImports at hfe
  dsimp only at hfe
  split at hfe
  · exact absurd hfe (by simp)
  · injection hfe with hfe
    have hedits : ∀ e ∈ fe.edits, e.startCol = 0 ∧
        e.endCol = (file.lines.getD e.line []).length := by
      intro e he
      rw [← hfe] at he
      simp only at he
      obtain ⟨imp, _, hmk⟩ := List.mem_filterMap.mp he
      exact hstep imp e hmk
    refine ⟨hedits, ?_⟩
    intro e he e' he' hline
    obtain ⟨hs, hc⟩ := hedits e he
    obtain ⟨hs', hc'⟩ := hedits e' he'
    refine ⟨by rw [hs, hs'], ?_⟩
    rw [hc, hc', hline]

/-- C5 witness: the whole-line property evaluated at the two concrete edits of
the two-imports Go file. -/
theorem c5_witness :
    ((⟨1, 0, 50, c5New1⟩ : TextEditM).startCol = 0 ∧
      (⟨1, 0, 50, c5New1⟩ : TextEditM).endCol =
        (c5GoFile.lines.getD (⟨1, 0, 50, c5New1⟩ : TextEditM).line []).length) ∧
    ((⟨1, 0, 50, c5New2⟩ : TextEditM).startCol = 0 ∧
      (⟨1, 0, 50, c5New2⟩ : TextEditM).endCol =
        (c5GoFile.lines.getD (⟨1, 0, 50, c5New2⟩ : TextEditM).line []).length) := by
  have hth := c5_folder_edits_whole_line c5GoFile c4OldRel c4NewRel
    (posixBasename "/ws/internal/utils".toList)
    (posixBasename "/ws/internal/common/utils".toList) ⟨.auto, .auto⟩ c5FE
    (by decide)
  exact ⟨hth.1 ⟨1, 0, 50, c5New1⟩ (by decide), hth.1 ⟨1, 0, 50, c5New2⟩ (by decide)⟩

/-- C5 counterexample: the folder scan of a Go block line holding two imports
of the renamed directory returns one FileEdit with two whole-line edits whose
ranges coincide — they overlap, refuting the claimed pairwise disjointness. -/
theorem c5_counterexample :
    c5Result = some c5FE ∧
    (c5FE.edits.getD 0 ⟨0, 0, 0, []⟩).line =
      (c5FE.edits.getD 1 ⟨0, 0, 0, []⟩).line ∧
    (c5FE.edits.getD 0 ⟨0, 0, 0, []⟩).startCol <
      (c5FE.edits.getD 1 ⟨0, 0, 0, []⟩).endCol ∧
    (c5FE.edits.getD 1 ⟨0, 0, 0, []⟩).startCol <
      (c5FE.edits.getD 0 ⟨0, 0, 0, []⟩).endCol ∧
    (c5FE.edits.getD 0 ⟨0, 0, 0, []⟩).newText ≠
      (c5FE.edits.getD 1 ⟨0, 0, 0, []⟩).newText := by
  refine ⟨by decide, by decide, by decide, by decide, by decide⟩

/-- C7 (amended): the formatter's output is independent of the configured
semicolon style — `formatImportPath` never consults it, so no
configuration-over-original precedence exists for semicolons; the text after
the closing quote, semicolon included, is copied from the original statement
(shown on a statement that keeps its semicolon even under `never`). -/
theorem c7_semicolon_config_never_consulted :
    (∀ (qs : QuoteStyle) (s1 s2 : SemicolonStyle) (orig newPath : Str),
      ImportFormatter.formatImportPath ⟨qs, s1⟩ orig newPath =
        ImportFormatter.formatImportPath ⟨qs, s2⟩ orig newPath) ∧
    ImportFormatter.formatImportPath ⟨.auto, .never⟩ c7SemiLine "./b".toList =
      c7NewSemi ∧
    c7NewSemi.getLast? = some ';' :=
  ⟨fun _ _ _ _ _ => rfl, by decide, by decide⟩

/-- C7 counterexample: with the semicolon style configured `always`, the
rewritten statement whose original had no semicolon still ends without one —
the configured style does not override the original statement. -/
theorem c7_counterexample :
    ImportFormatter.formatImportPath ⟨.auto, .always⟩ c7NoSemiLine
      "./b".toList = c7NewNoSemi ∧
    c7NewNoSemi.getLast? = some sq ∧
    c7NewNoSemi.getLast? ≠ some ';' := by
  refine ⟨by decide, by decide, by decide⟩

/-- C8: pushing an entry on a well-formed ledger first discards every entry
after the cursor, appends the new entry and advances the cursor; when the
push exceeds the configured maximum depth (at least one, per the documented
`history.maxEntries` range 10-100) the oldest entry is evicted and the cursor
is decremented, so it still points at the newly added entry — the new tail —
and well-formedness is preserved. -/
theorem c8_addEntry_truncates_and_evicts {α : Type} (h : List α) (ci : Int)
    (maxEntries : Nat) (e : α)
    (hwf : HistoryManager.WF maxEntries (h, ci)) (hmax : 1 ≤ maxEntries) :
    (HistoryManager.addEntry true maxEntries (h, ci) e).1 =
      (if maxEntries < (h.take (ci + 1).toNat ++ [e]).length
       then (h.take (ci + 1).toNat ++ [e]).drop 1
       else h.take (ci + 1).toNat ++ [e]) ∧
    (HistoryManager.addEntry true maxEntries (h, ci) e).2 =
      (((HistoryManager.addEntry true maxEntries (h, ci) e).1.length : Int) - 1) ∧
    (HistoryManager.addEntry true maxEntries (h, ci) e).1.getLast? = some e ∧
    HistoryManager.WF maxEntries (HistoryManager.addEntry true maxEntries (h, ci) e) := by
  obtain ⟨hwf1, hwf2, hwf3⟩ := hwf
  have hwf1' : -1 ≤ ci := hwf1
  have hwf2' : ci < (h.length : Int) := hwf2
  have hwf3' : h.length ≤ maxEntries := hwf3
  have htklen : (h.take (ci + 1).toNat).length = (ci + 1).toNat := by
    rw [List.length_take]
    omega
  have hAlen : (h.take (ci + 1).toNat ++ [e]).length = (ci + 1).toNat + 1 := by
    simp [htklen]
  have hhist : (if ci < (h.length : Int) - 1 then h.take (ci + 1).toNat else h) =
      h.take (ci + 1).toNat := by
    split
    · rfl
    · rw [List.take_of_length_le (by omega)]
  have hpair : HistoryManager.addEntry true maxEntries (h, ci) e =
      (if maxEntries < (h.take (ci + 1).toNat ++ [e]).length
       then ((h.take (ci + 1).toNat ++ [e]).drop 1, ci)
       else (h.take (ci + 1).toNat ++ [e], ci + 1)) := by
    unfold HistoryManager.addEntry
    rw [show (!true) = false from rfl, if_neg (by simp)]
    dsimp only
    rw [hhist]
    by_cases hover : (maxEntries : Int) < ((h.take (ci + 1).toNat ++ [e]).length : Int)
    · rw [if_pos hover, if_pos (by exact_mod_cast hover)]
      refine congrArg _ ?_
      omega
    · rw [if_neg hover, if_neg (fun hx => hover (by exact_mod_cast hx))]
  by_cases hover : maxEntries < (h.take (ci + 1).toNat ++ [e]).length
  · simp only [hpair, if_pos hover]
    have htkpos : 1 ≤ (h.take (ci + 1).toNat).length := by omega
    have hdropA : ((h.take (ci + 1).toNat ++ [e]).drop 1) =
        (h.take (ci + 1).toNat).drop 1 ++ [e] :=
      List.drop_append_of_le_length htkpos
    refine ⟨trivial, ?_, ?_, ?_, ?_, ?_⟩
    · simp only [List.length_drop, hAlen]
      omega
    · rw [hdropA]
      exact List.getLast?_concat _
    · simp only [List.length_drop, hAlen]
      omega
    · simp only [List.length_drop, hAlen]
      omega
    · simp only [List.length_drop, hAlen]
      omega
  · simp only [hpair, if_neg hover]
    refine ⟨trivial, ?_, ?_, ?_, ?_, ?_⟩
    · simp only [hAlen]
      omega
    · exact List.getLast?_concat _
    · simp only
      omega
    · simp only [hAlen]
      omega
    · simp only [hAlen]
      omega

/-- C8 witness: pushing onto a depth-3 ledger whose cursor sits after an undo
discards the redo tail and leaves the cursor on the new entry. -/
theorem c8_witness :
    (HistoryManager.addEntry true 3 ([10, 20, 30], (1 : Int)) (99 : Nat)).1 =
        [10, 20, 99] ∧
      (HistoryManager.addEntry true 3 ([10, 20, 30], (1 : Int)) 99).2 = 2 := by
  have hth := c8_addEntry_truncates_and_evicts [10, 20, 30] 1 3 (99 : Nat)
    (by constructor <;> simp) (by omega)
  obtain ⟨h1, h2, _, _⟩ := hth
  refine ⟨?_, ?_⟩
  · rw [h1]; decide
  · rw [h2, h1]; decide

/-- C9: a failing per-file scan contributes no edits but never aborts the
batch — the edit computation completes and returns exactly the edits of the
remaining files — while an expired operation deadline propagates as the
timeout error. -/
theorem c9_per_file_failure_isolated {F : Type}
    (scan : F → Except Str (Option FileEditM)) (l1 l2 : List F) (f : F)
    (msg : Str) (hfail : scan f = .error msg) :
    RenameHandler.findAllEditsQuiet false scan (l1 ++ f :: l2) =
        .ok (RenameHandler.handleFileRenameExc scan (l1 ++ l2)) ∧
    RenameHandler.findAllEditsQuiet true scan (l1 ++ f :: l2) =
        .error RenameHandler.timeoutMsg := by
  constructor
  · unfold RenameHandler.findAllEditsQuiet
    rw [if_neg (by simp)]
    congr 1
    have hproc : RenameHandler.fileProcessor scan f = .ok none := by
      unfold RenameHandler.fileProcessor
      rw [hfail]
    simp [RenameHandler.handleFileRenameExc, BatchProcessor.processWithLimit,
      List.filterMap_append, List.filterMap_cons, hproc]
  · rfl

/-- C9 witness: with one of three files failing to scan, the computation
returns the edits of the two others, and the timeout path fails. -/
theorem c9_witness :
    RenameHandler.findAllEditsQuiet false
        (fun n : Nat => if n = 1 then .error "boom".toList
          else .ok (some ⟨[], []⟩)) [0, 1, 2] =
      .ok (RenameHandler.handleFileRenameExc
        (fun n : Nat => if n = 1 then .error "boom".toList
          else .ok (some ⟨[], []⟩)) [0, 2]) ∧
    RenameHandler.findAllEditsQuiet true
        (fun n : Nat => if n = 1 then .error "boom".toList
          else .ok (some ⟨[], []⟩)) [0, 1, 2] =
      .error RenameHandler.timeoutMsg :=
  c9_per_file_failure_isolated
    (fun n : Nat => if n = 1 then .error "boom".toList else .ok (some ⟨[], []⟩))
    [0] [2] 1 "boom".toList rfl

/-- C10: a JS/TS import path with no leading `.` or `/` but containing a
slash (such as `lodash/merge`) is classified as an aliased project import by
`doesImportMatchFile` without any alias map being consulted (the classifier
takes none): it matches exactly when its final slash segment, JS extension
stripped, equals the renamed file's base name; and when alias resolution
fails, `handleJavaScriptImport` rewrites it by substituting only that final
segment. -/
theorem c10_subpath_treated_as_alias (m : ImportMatch)
    (oldFileName toPath fromPath : Str) (resolver : ResolverM)
    (h1 : startsWithStr m.importPath ".".toList = false)
    (h2 : startsWithStr m.importPath "/".toList = false)
    (h3 : m.importPath.any (· = '/') = true)
    (hres : resolverAlias resolver toPath = none) :
    ImportScanner.doesImportMatchFile m oldFileName fromPath toPath =
        (stripJsExt (posixBasename m.importPath) == oldFileName) ∧
    PathUtils.handleJavaScriptImport toPath fromPath (some m.importPath)
        resolver =
      joinWithChar '/' ((splitOnChar '/' m.importPath).dropLast ++
        [stripJsExt (posixBasename toPath)]) := by
  constructor
  · simp only [ImportScanner.doesImportMatchFile, h1, h2, h3]
    simp
  · simp only [PathUtils.handleJavaScriptImport, h1, h2, h3, hres]
    simp

/-- C10 witness: `lodash/merge` is matched by terminal segment and rewritten
by final-segment substitution when the resolver yields nothing. -/
theorem c10_witness :
    ImportScanner.doesImportMatchFile
        ⟨"lodash/merge".toList, 0, 15, 27, .imp, [sq]⟩ "merge".toList
        "/ws/app.ts".toList "/ws/merged.ts".toList = true ∧
    PathUtils.handleJavaScriptImport "/ws/merged.ts".toList "/ws/app.ts".toList
        (some "lodash/merge".toList) {} = "lodash/merged".toList := by
  have hth := c10_subpath_treated_as_alias
    ⟨"lodash/merge".toList, 0, 15, 27, .imp, [sq]⟩ "merge".toList
    "/ws/merged.ts".toList "/ws/app.ts".toList {} (by decide) (by decide)
    (by decide) rfl
  constructor
  · rw [hth.1]
    decide
  · rw [hth.2]
    decide

end Linker
